import Mathlib

/-!
Verification of the book-spider repository: a shallow embedding of the
rate-limited, batched concurrent fetch pipeline implemented in
`book-spider/utils.py`, `book-spider/book_spider.py` and the near-duplicate
variant `book spider/book_spider.py`.

Modelling choices:
* A task (a Python coroutine submitted to the scheduler) is modelled by its
  outcome, a value of `Except eps beta`: either the value it returns or the
  exception it raises.
* The cooperative event loop is observed through traces of `Ev` events:
  begin/end of one randomized sleep, and begin/completion of the task with a
  given global index.  `asyncio.gather(*batch)` wraps each coroutine in an
  eagerly scheduled task; a scheduled task begins running at the parent's next
  suspension point.  In `utils.execute_batch_with_interval` the gather is
  created *before* `sleep_and_execute` suspends, so the batch's task-start
  events fall between `sleepStart` and `sleepEnd`; in the variant the sleep
  completes before `asyncio.gather` is called, so task starts follow
  `sleepEnd`.
* `asyncio.gather` result ordering is modelled honestly: each child writes its
  result into its own slot, and the order in which children complete is an
  arbitrary permutation (the completion schedule `σ`, one list per batch).
  The exception raised by a failing gather is the exception of the first
  failing child in completion order.
* Randomized sleep durations do not influence control flow (only the check
  `seconds <= 1` does), so they are not carried in the state.
* The `while True` loop of `execute_batch_with_interval` is embedded with
  explicit fuel, so that its divergence for `batch_size <= 0` is provable.
-/

set_option maxHeartbeats 1000000

namespace BookSpider

/-- Events observed by the cooperative scheduler model: begin and end of one
randomized sleep, and the begin / completion of the task with the given global
index. -/
inductive Ev where
  | sleepStart : Ev
  | sleepEnd : Ev
  | taskStart : Nat → Ev
  | taskDone : Nat → Ev
deriving DecidableEq, Repr

/-- Errors surfaced by the scheduling layer: the `ValueError` that
`sleep_and_execute` raises when `seconds <= 1` (an invalid delay window), or
the exception of a failing task propagated by `asyncio.gather`. -/
inductive RunError (eps : Type) where
  | invalidWindow : RunError eps
  | taskFailed : eps → RunError eps
deriving DecidableEq, Repr

variable {eps beta : Type}

/-- Completion of the child at position `i` of a gather: a child that
returned writes its result into its own slot; a child that raised writes
nothing. -/
def fillStep (chunk : List (Except eps beta)) (slots : List (Option beta))
    (i : Nat) : List (Option beta) :=
  match chunk[i]? with
  | some (Except.ok v) => slots.set i (some v)
  | _ => slots

/-- Result slots of `asyncio.gather`: each completed child writes its result
into its own slot (index into the batch), children completing in the order
given by `σ`. -/
def fillSlots (chunk : List (Except eps beta)) (σ : List Nat) : List (Option beta) :=
  σ.foldl (fillStep chunk) (List.replicate chunk.length none)

/-- Exception raised by `asyncio.gather` (without `return_exceptions`): the
exception of the first child, in completion order `σ`, that failed. -/
def firstErr (chunk : List (Except eps beta)) : List Nat → Option eps
  | [] => none
  | i :: rest =>
    match chunk[i]? with
    | some (Except.error e) => some e
    | _ => firstErr chunk rest

/-- Model of awaiting `asyncio.gather(*chunk)` whose children complete in
order `σ`: all-or-nothing — the first failing child's exception, or the result
slots. -/
def gatherStep (chunk : List (Except eps beta)) (σ : List Nat) :
    Except eps (List (Option beta)) :=
  match firstErr chunk σ with
  | some e => Except.error e
  | none => Except.ok (fillSlots chunk σ)

/-- Global indices `base, base+1, ..., base+n-1` of the tasks of one batch. -/
def startIdxs (base n : Nat) : List Nat :=
  (List.range n).map (fun j => base + j)

/-- Trace of one batch of `utils.execute_batch_with_interval`: the gather is
created before `sleep_and_execute` suspends, so the scheduled children begin
during the sleep; their completion is observed when the gather is awaited,
after the sleep. -/
def utilsBlock (base n : Nat) : List Ev :=
  Ev.sleepStart ::
    ((startIdxs base n).map Ev.taskStart ++
      (Ev.sleepEnd :: (startIdxs base n).map Ev.taskDone))

/-- Trace of one batch of the variant `execute_batch_with_interval` in
`book spider/book_spider.py`: the sleep completes before `asyncio.gather` is
called, so children begin only after the sleep. -/
def spiderBlock (base n : Nat) : List Ev :=
  Ev.sleepStart :: Ev.sleepEnd ::
    ((startIdxs base n).map Ev.taskStart ++ (startIdxs base n).map Ev.taskDone)

/-- Concatenation of `utilsBlock`s for batches of the given lengths, with
running base index. -/
def utilsBlocks : List Nat → Nat → List Ev
  | [], _ => []
  | n :: ns, base => utilsBlock base n ++ utilsBlocks ns (base + n)

/-- Concatenation of `spiderBlock`s for batches of the given lengths, with
running base index. -/
def spiderBlocks : List Nat → Nat → List Ev
  | [], _ => []
  | n :: ns, base => spiderBlock base n ++ spiderBlocks ns (base + n)

/-- One batch step of `utils.execute_batch_with_interval`:
`task = asyncio.gather(*batch); results += await sleep_and_execute(task, seconds)`.
`sleep_and_execute` raises `ValueError` before suspending if `seconds <= 1`
(so none of the scheduled children ever runs and no event is emitted);
otherwise it sleeps once and awaits the gather. -/
def utilsChunk (seconds : Int) (batch : List (Except eps beta)) (σ : List Nat)
    (base : Nat) : List Ev × Except (RunError eps) (List beta) :=
  if seconds ≤ 1 then ([], Except.error RunError.invalidWindow)
  else
    match gatherStep batch σ with
    | Except.error e =>
        (utilsBlock base batch.length, Except.error (RunError.taskFailed e))
    | Except.ok slots =>
        (utilsBlock base batch.length, Except.ok slots.reduceOption)

/-- One batch step of the variant `execute_batch_with_interval`:
`await asyncio.sleep(random.uniform(1, seconds)); results += await asyncio.gather(*batch)`.
No validation of `seconds` is performed (`random.uniform` accepts any bounds),
so this step never raises `invalidWindow`. -/
def spiderChunk (batch : List (Except eps beta)) (σ : List Nat) (base : Nat) :
    List Ev × Except (RunError eps) (List beta) :=
  match gatherStep batch σ with
  | Except.error e =>
      (spiderBlock base batch.length, Except.error (RunError.taskFailed e))
  | Except.ok slots =>
      (spiderBlock base batch.length, Except.ok slots.reduceOption)

/-- Chunking helper with explicit fuel.  `chunksGo b fuel l` splits `l` into
consecutive chunks of `b + 1` elements, provided `fuel ≥ l.length` (each step
consumes at least the head element, so the fuel is never exhausted then). -/
def chunksGo (b : Nat) : Nat → List alpha → List (List alpha)
  | _, [] => []
  | 0, x :: xs => [x :: xs]
  | fuel + 1, x :: xs => (x :: xs.take b) :: chunksGo b fuel (xs.drop b)

/-- Consecutive chunks of `b + 1` elements of a list (final chunk shorter, no
empty final chunk).  This is the partition realized by repeatedly pulling
`batch_size` elements off the task iterator. -/
def chunksOf1 (b : Nat) (l : List alpha) : List (List alpha) :=
  chunksGo b l.length l

/-- Sequential processing of a list of batches by
`utils.execute_batch_with_interval`, one completion schedule per batch, with
running base index: each batch contributes its trace, and the results
accumulate until a batch fails. -/
def processChunksU (seconds : Int) :
    List (List (Except eps beta)) → List (List Nat) → Nat →
      List Ev × Except (RunError eps) (List beta)
  | [], _, _ => ([], Except.ok [])
  | c :: cs, σs, base =>
    match utilsChunk seconds c (σs.headD []) base with
    | (btr, Except.error e) => (btr, Except.error e)
    | (btr, Except.ok vs) =>
      let rest := processChunksU seconds cs σs.tail (base + c.length)
      (btr ++ rest.1, rest.2.map (fun ws => vs ++ ws))

/-- Sequential processing of a list of batches by the variant
`execute_batch_with_interval` of `book spider/book_spider.py`. -/
def processChunksS :
    List (List (Except eps beta)) → List (List Nat) → Nat →
      List Ev × Except (RunError eps) (List beta)
  | [], _, _ => ([], Except.ok [])
  | c :: cs, σs, base =>
    match spiderChunk c (σs.headD []) base with
    | (btr, Except.error e) => (btr, Except.error e)
    | (btr, Except.ok vs) =>
      let rest := processChunksS cs σs.tail (base + c.length)
      (btr ++ rest.1, rest.2.map (fun ws => vs ++ ws))

namespace Utils

/-- Shallow embedding of `utils.sleep_and_execute(task, seconds)`: raise
`ValueError` if `seconds <= 1` (before sleeping and before the task coroutine
is ever awaited, so no event is emitted), otherwise sleep once and await the
task.  `i` is the global index used to label the task's events. -/
def sleep_and_execute (seconds : Int) (t : Except eps beta) (i : Nat) :
    List Ev × Except (RunError eps) beta :=
  if seconds ≤ 1 then ([], Except.error RunError.invalidWindow)
  else
    match t with
    | Except.ok v =>
        ([Ev.sleepStart, Ev.sleepEnd, Ev.taskStart i, Ev.taskDone i],
          Except.ok v)
    | Except.error e =>
        ([Ev.sleepStart, Ev.sleepEnd, Ev.taskStart i],
          Except.error (RunError.taskFailed e))

/-- Loop of `utils.execute_with_interval`: for each task in order, await
`sleep_and_execute(task, seconds)` and append its result.  An exception
aborts the loop and propagates. -/
def seqLoop (seconds : Int) :
    List (Except eps beta) → Nat → List beta → List Ev →
      List Ev × Except (RunError eps) (List beta)
  | [], _, acc, tr => (tr, Except.ok acc)
  | t :: ts, i, acc, tr =>
    match sleep_and_execute seconds t i with
    | (btr, Except.error e) => (tr ++ btr, Except.error e)
    | (btr, Except.ok v) => seqLoop seconds ts (i + 1) (acc ++ [v]) (tr ++ btr)

/-- Shallow embedding of `utils.execute_with_interval(tasks, seconds)`. -/
def execute_with_interval (tasks : List (Except eps beta)) (seconds : Int) :
    List Ev × Except (RunError eps) (List beta) :=
  seqLoop seconds tasks 0 [] []

/-- Trace of `utils.execute_with_interval`. -/
def seqTrace (tasks : List (Except eps beta)) (seconds : Int) : List Ev :=
  (execute_with_interval tasks seconds).1

/-- Return value (or exception) of `utils.execute_with_interval`. -/
def seqResults (tasks : List (Except eps beta)) (seconds : Int) :
    Except (RunError eps) (List beta) :=
  (execute_with_interval tasks seconds).2

/-- Shallow embedding of the `while True` loop of
`utils.execute_batch_with_interval`, with explicit fuel.  One iteration pulls
up to `batch_size` tasks off the iterator (`rem.take bs.toNat`; for
`batch_size <= 0`, `range(batch_size)` is empty, no `next` is issued and the
batch stays empty).  If fewer than `batch_size` tasks were obtained,
`StopIteration` was raised: a non-empty residual batch is gathered and slept
once more, then the loop breaks; an empty one breaks immediately.  Otherwise
the full batch is gathered and slept, and the loop continues.  `k` counts
batches (to pick the completion schedule), `base` is the global index of the
batch's first task. -/
def batchLoop (seconds bs : Int) (σs : List (List Nat)) :
    Nat → List (Except eps beta) → Nat → Nat → List beta → List Ev →
      Option (List Ev × Except (RunError eps) (List beta))
  | 0, _, _, _, _, _ => none
  | fuel + 1, rem, k, base, acc, tr =>
    let b := bs.toNat
    let batch := rem.take b
    if batch.length < b then
      if batch.isEmpty then some (tr, Except.ok acc)
      else
        match utilsChunk seconds batch (σs.getD k []) base with
        | (btr, Except.error e) => some (tr ++ btr, Except.error e)
        | (btr, Except.ok vs) => some (tr ++ btr, Except.ok (acc ++ vs))
    else
      match utilsChunk seconds batch (σs.getD k []) base with
      | (btr, Except.error e) => some (tr ++ btr, Except.error e)
      | (btr, Except.ok vs) =>
          batchLoop seconds bs σs fuel (rem.drop b) (k + 1) (base + b)
            (acc ++ vs) (tr ++ btr)

/-- Shallow embedding of `utils.execute_batch_with_interval(tasks, seconds,
batch_size)`.  The initial fuel `tasks.length + 1` is sufficient whenever
`batch_size ≥ 1` (each loop iteration then consumes at least one task);
`none` means the loop diverges. -/
def execute_batch_with_interval (tasks : List (Except eps beta))
    (seconds bs : Int) (σs : List (List Nat)) :
    Option (List Ev × Except (RunError eps) (List beta)) :=
  batchLoop seconds bs σs (tasks.length + 1) tasks 0 0 [] []

/-- Trace of `utils.execute_batch_with_interval` (empty if it diverges). -/
def batchTrace (tasks : List (Except eps beta)) (seconds bs : Int)
    (σs : List (List Nat)) : List Ev :=
  match execute_batch_with_interval tasks seconds bs σs with
  | some (tr, _) => tr
  | none => []

/-- Return value (or exception) of `utils.execute_batch_with_interval`.  The
`none` branch is dead code whenever `batch_size ≥ 1` (see
`Utils.execute_batch_terminates`). -/
def batchResults (tasks : List (Except eps beta)) (seconds bs : Int)
    (σs : List (List Nat)) : Except (RunError eps) (List beta) :=
  match execute_batch_with_interval tasks seconds bs σs with
  | some (_, r) => r
  | none => Except.error RunError.invalidWindow

end Utils

namespace Spider

/-- Shallow embedding of the `while True` loop of the variant
`execute_batch_with_interval` in `book spider/book_spider.py`: identical
chunking, but each batch sleeps first (`await asyncio.sleep(...)`, with no
validation of `seconds`) and only then calls and awaits `asyncio.gather`. -/
def batchLoop (seconds bs : Int) (σs : List (List Nat)) :
    Nat → List (Except eps beta) → Nat → Nat → List beta → List Ev →
      Option (List Ev × Except (RunError eps) (List beta))
  | 0, _, _, _, _, _ => none
  | fuel + 1, rem, k, base, acc, tr =>
    let b := bs.toNat
    let batch := rem.take b
    if batch.length < b then
      if batch.isEmpty then some (tr, Except.ok acc)
      else
        match spiderChunk batch (σs.getD k []) base with
        | (btr, Except.error e) => some (tr ++ btr, Except.error e)
        | (btr, Except.ok vs) => some (tr ++ btr, Except.ok (acc ++ vs))
    else
      match spiderChunk batch (σs.getD k []) base with
      | (btr, Except.error e) => some (tr ++ btr, Except.error e)
      | (btr, Except.ok vs) =>
          batchLoop seconds bs σs fuel (rem.drop b) (k + 1) (base + b)
            (acc ++ vs) (tr ++ btr)

/-- Shallow embedding of the variant
`execute_batch_with_interval(tasks, batch_size, seconds)` of
`book spider/book_spider.py` (defaults `batch_size = 10`, `seconds = 2`). -/
def execute_batch_with_interval (tasks : List (Except eps beta))
    (bs seconds : Int) (σs : List (List Nat)) :
    Option (List Ev × Except (RunError eps) (List beta)) :=
  batchLoop seconds bs σs (tasks.length + 1) tasks 0 0 [] []

/-- Trace of the variant `execute_batch_with_interval`. -/
def batchTrace (tasks : List (Except eps beta)) (bs seconds : Int)
    (σs : List (List Nat)) : List Ev :=
  match execute_batch_with_interval tasks bs seconds σs with
  | some (tr, _) => tr
  | none => []

/-- Return value (or exception) of the variant
`execute_batch_with_interval`. -/
def batchResults (tasks : List (Except eps beta)) (bs seconds : Int)
    (σs : List (List Nat)) : Except (RunError eps) (List beta) :=
  match execute_batch_with_interval tasks bs seconds σs with
  | some (_, r) => r
  | none => Except.error RunError.invalidWindow

end Spider

/-- Validity of a family of completion schedules for the batches of a task
list: one schedule per batch, each a permutation of the batch's positions
(this is what the event loop guarantees: every child of a gather completes
exactly once). -/
def schedFits : List (List Nat) → List (List (Except eps beta)) → Bool
  | [], [] => true
  | σ :: σs, c :: cs =>
      (decide (σ.Perm (List.range c.length))) && schedFits σs cs
  | _, _ => false

/-- The completion schedules `σs` fit the batches that
`execute_batch_with_interval` forms from `tasks` at batch size `bs`. -/
@[reducible]
def SchedOK (σs : List (List Nat)) (bs : Int)
    (tasks : List (Except eps beta)) : Prop :=
  schedFits σs (chunksOf1 (bs.toNat - 1) tasks) = true

/-- Texts of the five elements that `scrape_book_details` selects from a
detail page with BeautifulSoup.  The CSS-selector layer itself is out of
scope (spec section 1 treats extraction selectors as pluggable), so a detail
page is modelled by what the five selectors return. -/
structure DetailPage where
  genreText : String
  titleText : String
  priceText : String
  stockText : String
  upcText : String
deriving DecidableEq, Repr

/-- The structured record produced for one book, with exactly the five fields
built by `scrape_book_details`. -/
structure BookRecord where
  genre : String
  title : String
  price : String
  stock : String
  upc : String
deriving DecidableEq, Repr

/-- Match of the regex `\d+\.\d{2}` anchored at the start of `l`.  The greedy
`\d+` takes the maximal digit run; a shorter run cannot be followed by `.`
(the next character would still be a digit), so no backtracking case is
possible and this equals Python's leftmost match attempt at this position. -/
def matchPriceAt (l : List Char) : Option (List Char) :=
  let run := l.takeWhile Char.isDigit
  if run.isEmpty then none
  else
    match l.drop run.length with
    | '.' :: d1 :: d2 :: _ =>
      if d1.isDigit && d2.isDigit then some (run ++ ['.', d1, d2]) else none
    | _ => none

/-- Model of `re.search(r"\d+\.\d{2}", s)`: try each start position from the
left, returning the first successful match. -/
def searchPriceNum : List Char → Option (List Char)
  | [] => none
  | c :: cs =>
    match matchPriceAt (c :: cs) with
    | some m => some m
    | none => searchPriceNum cs

/-- Model of `re.search(r"\d+", s)`: the leftmost maximal run of digits. -/
def searchDigits : List Char → Option (List Char)
  | [] => none
  | c :: cs =>
    if c.isDigit then some ((c :: cs).takeWhile Char.isDigit)
    else searchDigits cs

/-- Shallow embedding of `scrape_book_details(html)`: genre, title and upc are
the selected strings; price is the first `\d+\.\d{2}` match of the price text
and stock the first `\d+` match of the stock text.  In the source a failing
`re.search` returns `None` and the subsequent `.group()` raises; this is the
`none` outcome. -/
def scrape_book_details (p : DetailPage) : Option BookRecord :=
  match searchPriceNum p.priceText.data with
  | none => none
  | some pr =>
    match searchDigits p.stockText.data with
    | none => none
    | some st =>
      some
        { genre := p.genreText, title := p.titleText,
          price := String.mk pr, stock := String.mk st, upc := p.upcText }

/-- Detail page of the known fixture "A Light in the Attic" from
books.toscrape.com, with the texts the five selectors return. -/
def fixturePage : DetailPage :=
  { genreText := "Poetry", titleText := "A Light in the Attic",
    priceText := "£51.77", stockText := "In stock (22 available)",
    upcText := "a897fe39b1053632" }

/-- External collaborators of the pipeline driver: the HTTP fetch of a listing
page, the link extractor `scrape_book_links`, the HTTP fetch of a detail page
(including its per-task delay), and the BeautifulSoup selector layer of a
detail page.  All are read-only oracles, as specified for external
interfaces. -/
structure Oracles (eps : Type) where
  fetchPage : String → Except eps String
  linksOf : String → List String
  fetchDetail : String → Except eps String
  selectors : String → Option DetailPage

/-- Errors of the whole pipeline: the scheduler's invalid-window `ValueError`,
a network-layer exception, or the crash of `scrape_book_details` on an
unexpected page structure. -/
inductive SpiderErr (eps : Type) where
  | invalidWindow : SpiderErr eps
  | net : eps → SpiderErr eps
  | extract : SpiderErr eps
deriving DecidableEq, Repr

/-- Collapse a scheduler-level error over pipeline errors into a pipeline
error (no exception is caught anywhere, so errors only propagate). -/
def flattenErr : RunError (SpiderErr eps) → SpiderErr eps
  | RunError.invalidWindow => SpiderErr.invalidWindow
  | RunError.taskFailed e => e

/-- Shallow embedding of `get_book_data(client, url)`: fetch the detail page
(the request's own delay is internal to the task) then scrape it; any network
error or scraping crash propagates. -/
def get_book_data (O : Oracles eps) (url : String) :
    Except (SpiderErr eps) BookRecord :=
  match O.fetchDetail url with
  | Except.error e => Except.error (SpiderErr.net e)
  | Except.ok html =>
    match O.selectors html with
    | none => Except.error SpiderErr.extract
    | some p =>
      match scrape_book_details p with
      | none => Except.error SpiderErr.extract
      | some r => Except.ok r

/-- Shallow embedding of `get_books(client, url)`: fetch the listing page
without delay, extract the book links, and run one `get_book_data` task per
link through `execute_batch_with_interval` with `seconds = SLEEP_TIME = 2`
and `batch_size = BATCH_SIZE = 10`. -/
def get_books (O : Oracles eps) (σs : List (List Nat)) (url : String) :
    Except (SpiderErr eps) (List BookRecord) :=
  match O.fetchPage url with
  | Except.error e => Except.error (SpiderErr.net e)
  | Except.ok html =>
    Except.mapError flattenErr
      (Utils.batchResults ((O.linksOf html).map (get_book_data O)) 2 10 σs)

/-- The listing URL `URL.format(i)` for page index `i`. -/
def pageURL (i : Nat) : String :=
  "http://books.toscrape.com/catalogue/page-" ++ toString i ++ ".html"

/-- The listing-page tasks built by `main`: one `get_books` task per page
index in `range(1, 51)`. -/
def pageTasks (O : Oracles eps) (schedD : Nat → List (List Nat)) :
    List (Except (SpiderErr eps) (List BookRecord)) :=
  (List.range' 1 50).map (fun i => get_books O (schedD i) (pageURL i))

/-- Shallow embedding of `main()` up to the final write: run the page tasks
through `execute_with_interval` with `seconds = SLEEP_TIME = 2`, then flatten
the per-page record lists with `chain.from_iterable`. -/
def mainResult (O : Oracles eps) (schedD : Nat → List (List Nat)) :
    Except (SpiderErr eps) (List BookRecord) :=
  Except.map List.flatten
    (Except.mapError flattenErr (Utils.seqResults (pageTasks O schedD) 2))

/-- The rows written to `books.csv`: written once at the end of a successful
run; an uncaught error anywhere terminates `asyncio.run(main())` before
`to_csv` executes, so nothing is written. -/
def booksCsv (O : Oracles eps) (schedD : Nat → List (List Nat)) :
    Option (List BookRecord) :=
  match mainResult O schedD with
  | Except.ok rs => some rs
  | Except.error _ => none

/-- Checker for the property claimed of `delayThenRunAll`: no task of a group
begins executing while a sleep is in progress (i.e. no `taskStart` occurs
between a `sleepStart` and the following `sleepEnd`). -/
def noStartInSleep : Bool → List Ev → Bool
  | _, [] => true
  | _, Ev.sleepStart :: r => noStartInSleep true r
  | _, Ev.sleepEnd :: r => noStartInSleep false r
  | ins, Ev.taskStart _ :: r => !ins && noStartInSleep ins r
  | ins, Ev.taskDone _ :: r => noStartInSleep ins r

/-- Running maximum of the number of in-flight tasks (started, not yet
completed) along a trace. -/
def inFlight : Nat → Nat → List Ev → Nat
  | _, mx, [] => mx
  | cur, mx, Ev.taskStart _ :: r => inFlight (cur + 1) (max mx (cur + 1)) r
  | cur, mx, Ev.taskDone _ :: r => inFlight (cur - 1) mx r
  | cur, mx, Ev.sleepStart :: r => inFlight cur mx r
  | cur, mx, Ev.sleepEnd :: r => inFlight cur mx r

/-- Peak number of concurrently in-flight tasks over a trace. -/
def inFlightMax (tr : List Ev) : Nat :=
  inFlight 0 0 tr

/-- Trace of `n` tasks run by `utils.execute_with_interval` starting at global
index `i`: each task sleeps once, then runs to completion, strictly one at a
time. -/
def seqBlocks : Nat → Nat → List Ev
  | _, 0 => []
  | i, n + 1 =>
    Ev.sleepStart :: Ev.sleepEnd :: Ev.taskStart i :: Ev.taskDone i ::
      seqBlocks (i + 1) n

/-- The record scraped from the fixture detail page. -/
def fixtureRecord : BookRecord :=
  { genre := "Poetry", title := "A Light in the Attic", price := "51.77",
    stock := "22", upc := "a897fe39b1053632" }

/-- A second concrete detail page, with noise around the price and stock
numbers. -/
def fixturePage2 : DetailPage :=
  { genreText := "Fiction", titleText := "Sharp Objects",
    priceText := "£12.34 (incl. tax)", stockText := "only 5 left",
    upcText := "u1" }

/-- Concrete environment in which every fetch succeeds: every listing page
has no product links, and every detail page is the fixture page. -/
def okOracles : Oracles Nat :=
  { fetchPage := fun _ => Except.ok "page", linksOf := fun _ => [],
    fetchDetail := fun _ => Except.ok "detail",
    selectors := fun _ => some fixturePage }

/-- Concrete environment in which every network fetch fails. -/
def failOracles : Oracles Nat :=
  { fetchPage := fun _ => Except.error 0, linksOf := fun _ => [],
    fetchDetail := fun _ => Except.error 0, selectors := fun _ => none }

end BookSpider

deriving instance DecidableEq for Except

namespace BookSpider

variable {eps beta : Type}

theorem fillStep_length (chunk : List (Except eps beta))
    (slots : List (Option beta)) (i : Nat) :
    (fillStep chunk slots i).length = slots.length := by
  unfold fillStep
  cases h : chunk[i]? with
  | none => rfl
  | some o => cases o <;> simp [List.length_set]

theorem fillSlots_go_getElem (vs : List beta) :
    ∀ (σ : List Nat) (slots : List (Option beta)) (j : Nat),
      slots.length = vs.length →
      (σ.foldl (fillStep (vs.map (Except.ok : beta → Except eps beta))) slots)[j]? =
        if j ∈ σ ∧ j < vs.length then (vs[j]?).map some else slots[j]? := by
  intro σ
  induction σ with
  | nil => intro slots j _; simp
  | cons i σ' ih =>
    intro slots j hlen
    have hstep : (σ'.foldl (fillStep (vs.map (Except.ok : beta → Except eps beta)))
        (fillStep (vs.map (Except.ok : beta → Except eps beta)) slots i))[j]? =
        if j ∈ σ' ∧ j < vs.length then (vs[j]?).map some
        else (fillStep (vs.map (Except.ok : beta → Except eps beta)) slots i)[j]? := by
      apply ih
      rw [fillStep_length, hlen]
    rw [List.foldl_cons, hstep]
    by_cases hj1 : j ∈ σ' ∧ j < vs.length
    · simp only [hj1, if_pos]
      have : j ∈ i :: σ' ∧ j < vs.length := ⟨List.mem_cons_of_mem i hj1.1, hj1.2⟩
      simp [this]
    · simp only [hj1, if_neg, not_false_iff]
      by_cases hji : j = i
      · subst hji
        by_cases hjlt : j < vs.length
        · have hget : (vs.map (Except.ok : beta → Except eps beta))[j]? =
              some (Except.ok vs[j]) := by
            simp [List.getElem?_map, List.getElem?_eq_getElem hjlt]
          have : fillStep (vs.map (Except.ok : beta → Except eps beta)) slots j =
              slots.set j (some vs[j]) := by
            unfold fillStep; rw [hget]
          rw [this, List.getElem?_set_self (by rw [hlen]; exact hjlt)]
          have hmem : j ∈ j :: σ' ∧ j < vs.length := ⟨List.mem_cons_self j σ', hjlt⟩
          simp [hmem, List.getElem?_eq_getElem hjlt]
        · have hget : (vs.map (Except.ok : beta → Except eps beta))[j]? = none := by
            simp [List.getElem?_map, List.getElem?_eq_none (Nat.le_of_not_lt hjlt)]
          have : fillStep (vs.map (Except.ok : beta → Except eps beta)) slots j =
              slots := by
            unfold fillStep; rw [hget]
          rw [this]
          simp [hjlt]
      · have : (fillStep (vs.map (Except.ok : beta → Except eps beta)) slots i)[j]? =
            slots[j]? := by
          unfold fillStep
          cases hgi : (vs.map (Except.ok : beta → Except eps beta))[i]? with
          | none => rfl
          | some o =>
            cases o with
            | ok v => exact List.getElem?_set_ne (fun h => hji h.symm)
            | error e => rfl
        rw [this]
        rw [if_neg]
        intro hcon
        rcases hcon with ⟨hm, hlt⟩
        rcases List.mem_cons.mp hm with h | h
        · exact hji h
        · exact hj1 ⟨h, hlt⟩

theorem fillSlots_ok (vs : List beta) (σ : List Nat)
    (hσ : σ.Perm (List.range vs.length)) :
    fillSlots (vs.map (Except.ok : beta → Except eps beta)) σ = vs.map some := by
  apply List.ext_getElem?
  intro j
  have hlen : (List.replicate (vs.map (Except.ok : beta → Except eps beta)).length
      (none : Option beta)).length = vs.length := by
    simp
  rw [fillSlots, fillSlots_go_getElem vs σ _ j hlen]
  by_cases hj : j < vs.length
  · have hmem : j ∈ σ := hσ.mem_iff.mpr (List.mem_range.mpr hj)
    simp [hmem, hj, List.getElem?_map]
  · have : ¬(j ∈ σ ∧ j < vs.length) := fun h => hj h.2
    simp only [this, if_neg, not_false_iff]
    have h1 : (List.replicate (vs.map (Except.ok : beta → Except eps beta)).length
        (none : Option beta))[j]? = none := by
      apply List.getElem?_eq_none
      simp [Nat.le_of_not_lt hj]
    have h2 : (vs.map (some : beta → Option beta))[j]? = none := by
      apply List.getElem?_eq_none
      simp [Nat.le_of_not_lt hj]
    rw [h1, h2]

theorem firstErr_ok (vs : List beta) :
    ∀ σ : List Nat,
      firstErr (vs.map (Except.ok : beta → Except eps beta)) σ = none := by
  intro σ
  induction σ with
  | nil => rfl
  | cons i σ' ih =>
    have hmap : (vs.map (Except.ok : beta → Except eps beta))[i]? =
        (vs[i]?).map Except.ok := List.getElem?_map _ _ _
    simp only [firstErr, hmap]
    cases ho : vs[i]? with
    | none => simpa using ih
    | some v => simpa using ih

theorem firstErr_found (ch : List (Except eps beta)) (e : eps) (j : Nat)
    (hj : ch[j]? = some (Except.error e)) :
    ∀ σ : List Nat, j ∈ σ → ∃ e', firstErr ch σ = some e' := by
  intro σ
  induction σ with
  | nil => intro h; exact absurd h (List.not_mem_nil j)
  | cons i σ' ih =>
    intro hmem
    unfold firstErr
    cases hgi : ch[i]? with
    | none =>
      rcases List.mem_cons.mp hmem with h | h
      · subst h; rw [hj] at hgi; exact absurd hgi (by simp)
      · simpa using ih h
    | some o =>
      cases o with
      | error e' => exact ⟨e', rfl⟩
      | ok v =>
        rcases List.mem_cons.mp hmem with h | h
        · subst h; rw [hj] at hgi; simp at hgi
        · simpa using ih h

theorem reduceOption_map_some (vs : List beta) :
    (vs.map some).reduceOption = vs := by
  induction vs with
  | nil => rfl
  | cons v vs ih => simp [List.reduceOption_cons_of_some, ih]

theorem gatherStep_ok (vs : List beta) (σ : List Nat)
    (hσ : σ.Perm (List.range vs.length)) :
    gatherStep (vs.map (Except.ok : beta → Except eps beta)) σ =
      Except.ok (vs.map some) := by
  unfold gatherStep
  rw [firstErr_ok, fillSlots_ok vs σ hσ]

theorem gatherStep_err (ch : List (Except eps beta)) (e : eps) (σ : List Nat)
    (hσ : σ.Perm (List.range ch.length)) (hmem : Except.error e ∈ ch) :
    ∃ e', gatherStep ch σ = Except.error e' := by
  obtain ⟨j, hj⟩ := List.getElem?_of_mem hmem
  have hjlt : j < ch.length := by
    rcases List.getElem?_eq_some.mp hj with ⟨h, _⟩
    exact h
  have hjσ : j ∈ σ := hσ.mem_iff.mpr (List.mem_range.mpr hjlt)
  obtain ⟨e', he'⟩ := firstErr_found ch e j hj σ hjσ
  exact ⟨e', by unfold gatherStep; rw [he']⟩

theorem utilsChunk_ok (seconds : Int) (hsec : 1 < seconds) (vs : List beta)
    (σ : List Nat) (hσ : σ.Perm (List.range vs.length)) (base : Nat) :
    utilsChunk seconds (vs.map (Except.ok : beta → Except eps beta)) σ base =
      (utilsBlock base vs.length, Except.ok vs) := by
  unfold utilsChunk
  rw [if_neg (by omega), gatherStep_ok vs σ hσ]
  simp [reduceOption_map_some]

theorem spiderChunk_ok (vs : List beta) (σ : List Nat)
    (hσ : σ.Perm (List.range vs.length)) (base : Nat) :
    spiderChunk (vs.map (Except.ok : beta → Except eps beta)) σ base =
      (spiderBlock base vs.length, Except.ok vs) := by
  unfold spiderChunk
  rw [gatherStep_ok vs σ hσ]
  simp [reduceOption_map_some]

theorem utilsChunk_err (seconds : Int) (hsec : 1 < seconds)
    (ch : List (Except eps beta)) (e : eps) (σ : List Nat)
    (hσ : σ.Perm (List.range ch.length)) (hmem : Except.error e ∈ ch) (base : Nat) :
    ∃ e', utilsChunk seconds ch σ base =
      (utilsBlock base ch.length, Except.error (RunError.taskFailed e')) := by
  obtain ⟨e', he'⟩ := gatherStep_err ch e σ hσ hmem
  exact ⟨e', by unfold utilsChunk; rw [if_neg (by omega), he']⟩

theorem spiderChunk_err (ch : List (Except eps beta)) (e : eps) (σ : List Nat)
    (hσ : σ.Perm (List.range ch.length)) (hmem : Except.error e ∈ ch) (base : Nat) :
    ∃ e', spiderChunk ch σ base =
      (spiderBlock base ch.length, Except.error (RunError.taskFailed e')) := by
  obtain ⟨e', he'⟩ := gatherStep_err ch e σ hσ hmem
  exact ⟨e', by unfold spiderChunk; rw [he']⟩

theorem chunksGo_nil (b : Nat) (fuel : Nat) :
    chunksGo b fuel ([] : List alpha) = [] := by
  cases fuel <;> rfl

theorem chunksGo_fuel_irrel (b : Nat) :
    ∀ (fuel fuel' : Nat) (l : List alpha), l.length ≤ fuel → l.length ≤ fuel' →
      chunksGo b fuel l = chunksGo b fuel' l := by
  intro fuel
  induction fuel with
  | zero =>
    intro fuel' l hl _
    have : l = [] := List.eq_nil_of_length_eq_zero (Nat.le_zero.mp hl)
    subst this
    rw [chunksGo_nil, chunksGo_nil]
  | succ f ih =>
    intro fuel' l hl hl'
    cases l with
    | nil => rw [chunksGo_nil, chunksGo_nil]
    | cons x xs =>
      cases fuel' with
      | zero => simp at hl'
      | succ f' =>
        show (x :: xs.take b) :: chunksGo b f (xs.drop b) =
          (x :: xs.take b) :: chunksGo b f' (xs.drop b)
        have hd : (xs.drop b).length ≤ f := by
          rw [List.length_drop]
          simp at hl
          omega
        have hd' : (xs.drop b).length ≤ f' := by
          rw [List.length_drop]
          simp at hl'
          omega
        rw [ih f' (xs.drop b) hd hd']

theorem chunksOf1_nil (b : Nat) : chunksOf1 b ([] : List alpha) = [] := rfl

theorem chunksOf1_cons (b : Nat) (x : alpha) (xs : List alpha) :
    chunksOf1 b (x :: xs) = (x :: xs.take b) :: chunksOf1 b (xs.drop b) := by
  show chunksGo b (xs.length + 1) (x :: xs) = _
  show (x :: xs.take b) :: chunksGo b xs.length (xs.drop b) = _
  rw [chunksOf1,
    chunksGo_fuel_irrel b xs.length (xs.drop b).length (xs.drop b)
      (by rw [List.length_drop]; omega) (Nat.le_refl _)]

theorem chunksOf1_flatten_n (b : Nat) :
    ∀ (n : Nat) (l : List alpha), l.length ≤ n → (chunksOf1 b l).flatten = l := by
  intro n
  induction n with
  | zero =>
    intro l hl
    have : l = [] := List.eq_nil_of_length_eq_zero (Nat.le_zero.mp hl)
    subst this
    rfl
  | succ m ih =>
    intro l hl
    cases l with
    | nil => rfl
    | cons x xs =>
      rw [chunksOf1_cons]
      have : (chunksOf1 b (xs.drop b)).flatten = xs.drop b := by
        apply ih
        rw [List.length_drop]
        simp at hl
        omega
      simp only [List.flatten_cons, this, List.cons_append]
      rw [List.take_append_drop]

theorem chunksOf1_flatten (b : Nat) (l : List alpha) :
    (chunksOf1 b l).flatten = l :=
  chunksOf1_flatten_n b l.length l (Nat.le_refl _)

theorem chunksOf1_length_n (b : Nat) :
    ∀ (n : Nat) (l : List alpha), l.length ≤ n →
      (chunksOf1 b l).length = (l.length + b) / (b + 1) := by
  intro n
  induction n with
  | zero =>
    intro l hl
    have : l = [] := List.eq_nil_of_length_eq_zero (Nat.le_zero.mp hl)
    subst this
    simp [chunksOf1_nil, Nat.div_eq_of_lt (by omega : b < b + 1)]
  | succ m ih =>
    intro l hl
    cases l with
    | nil => simp [chunksOf1_nil, Nat.div_eq_of_lt (by omega : b < b + 1)]
    | cons x xs =>
      rw [chunksOf1_cons]
      have hrec : (chunksOf1 b (xs.drop b)).length =
          ((xs.drop b).length + b) / (b + 1) := by
        apply ih
        rw [List.length_drop]
        simp at hl
        omega
      simp only [List.length_cons, hrec, List.length_drop]
      have h1 : (xs.length + 1 + b) = xs.length + (b + 1) := by omega
      rw [h1, Nat.add_div_right xs.length (by omega : 0 < b + 1)]
      by_cases hxb : b ≤ xs.length
      · have : xs.length - b + b = xs.length := by omega
        rw [this]
      · have h2 : xs.length - b = 0 := by omega
        rw [h2, Nat.zero_add, Nat.div_eq_of_lt (by omega : b < b + 1),
          Nat.div_eq_of_lt (by omega : xs.length < b + 1)]

theorem chunksOf1_length (b : Nat) (l : List alpha) :
    (chunksOf1 b l).length = (l.length + b) / (b + 1) :=
  chunksOf1_length_n b l.length l (Nat.le_refl _)

theorem chunksOf1_map_n (b : Nat) (f : alpha → gamma) :
    ∀ (n : Nat) (l : List alpha), l.length ≤ n →
      chunksOf1 b (l.map f) = (chunksOf1 b l).map (List.map f) := by
  intro n
  induction n with
  | zero =>
    intro l hl
    have : l = [] := List.eq_nil_of_length_eq_zero (Nat.le_zero.mp hl)
    subst this
    rfl
  | succ m ih =>
    intro l hl
    cases l with
    | nil => rfl
    | cons x xs =>
      rw [List.map_cons, chunksOf1_cons, chunksOf1_cons]
      have hrec : chunksOf1 b ((xs.map f).drop b) =
          (chunksOf1 b (xs.drop b)).map (List.map f) := by
        rw [← List.map_drop]
        apply ih
        rw [List.length_drop]
        simp at hl
        omega
      rw [hrec]
      simp [List.map_take]

theorem chunksOf1_map (b : Nat) (f : alpha → gamma) (l : List alpha) :
    chunksOf1 b (l.map f) = (chunksOf1 b l).map (List.map f) :=
  chunksOf1_map_n b f l.length l (Nat.le_refl _)

theorem chunksOf1_mem_length_n (b : Nat) :
    ∀ (n : Nat) (l : List alpha) (ch : List alpha), l.length ≤ n →
      ch ∈ chunksOf1 b l → ch.length ≤ b + 1 := by
  intro n
  induction n with
  | zero =>
    intro l ch hl hmem
    have : l = [] := List.eq_nil_of_length_eq_zero (Nat.le_zero.mp hl)
    subst this
    simp [chunksOf1_nil] at hmem
  | succ m ih =>
    intro l ch hl hmem
    cases l with
    | nil => simp [chunksOf1_nil] at hmem
    | cons x xs =>
      rw [chunksOf1_cons] at hmem
      rcases List.mem_cons.mp hmem with h | h
      · subst h
        simp only [List.length_cons, List.length_take]
        omega
      · exact ih (xs.drop b) ch
          (by rw [List.length_drop]; simp at hl; omega) h

theorem chunksOf1_mem_length (b : Nat) (l : List alpha) (ch : List alpha)
    (hmem : ch ∈ chunksOf1 b l) : ch.length ≤ b + 1 :=
  chunksOf1_mem_length_n b l.length l ch (Nat.le_refl _) hmem

theorem getD_eq_headD_drop (σs : List (List Nat)) (k : Nat) :
    σs.getD k [] = (σs.drop k).headD [] := by
  simp [List.getD_eq_getElem?_getD, List.headD_eq_head?_getD, List.head?_drop]

theorem exceptMap_map (r : Except eps (List beta))
    (f g : List beta → List beta) :
    (r.map g).map f = r.map (fun ws => f (g ws)) := by
  cases r <;> rfl

theorem exceptMap_congr (r : Except eps (List beta))
    (f g : List beta → List beta) (h : ∀ ws, f ws = g ws) :
    r.map f = r.map g := by
  cases r with
  | error e => rfl
  | ok ws => simp [Except.map, h ws]

theorem Utils.batchLoop_spec (seconds bs : Int) (σs : List (List Nat))
    (hb : 1 ≤ bs.toNat) :
    ∀ (fuel : Nat) (rem : List (Except eps beta)) (k base : Nat)
      (acc : List beta) (tr : List Ev), rem.length < fuel →
      Utils.batchLoop seconds bs σs fuel rem k base acc tr =
        some (tr ++
            (processChunksU seconds (chunksOf1 (bs.toNat - 1) rem)
              (σs.drop k) base).1,
          ((processChunksU seconds (chunksOf1 (bs.toNat - 1) rem)
              (σs.drop k) base).2).map (fun ws => acc ++ ws)) := by
  intro fuel
  induction fuel with
  | zero => intro rem k base acc tr h; omega
  | succ f ih =>
    intro rem k base acc tr h
    rw [Utils.batchLoop]
    by_cases hlen : (rem.take bs.toNat).length < bs.toNat
    · rw [if_pos hlen]
      have hremlt : rem.length < bs.toNat := by
        rw [List.length_take] at hlen
        omega
      by_cases hemp : (rem.take bs.toNat).isEmpty
      · rw [if_pos hemp]
        have hnil : rem = [] := by
          rcases List.take_eq_nil_iff.mp (List.isEmpty_iff.mp hemp) with h0 | h0
          · omega
          · exact h0
        subst hnil
        rw [chunksOf1_nil]
        simp [processChunksU, Except.map]
      · rw [if_neg hemp]
        cases rem with
        | nil => simp at hemp
        | cons x xs =>
          have hxs : xs.length < bs.toNat - 1 + 1 := by
            simp at hremlt
            omega
          have htk : (x :: xs).take bs.toNat = x :: xs := by
            apply List.take_of_length_le
            simp
            omega
          have hchunks : chunksOf1 (bs.toNat - 1) (x :: xs) = [x :: xs] := by
            rw [chunksOf1_cons]
            rw [List.take_of_length_le (by omega), List.drop_eq_nil_of_le (by omega),
              chunksOf1_nil]
          rw [htk, hchunks, getD_eq_headD_drop]
          simp only [processChunksU]
          rcases hck : utilsChunk seconds (x :: xs) ((σs.drop k).headD []) base
            with ⟨btr, res⟩
          cases res with
          | error e => simp [Except.map]
          | ok vs => simp [processChunksU, Except.map]
    · rw [if_neg hlen]
      have hge : bs.toNat ≤ rem.length := by
        rw [List.length_take] at hlen
        omega
      have htklen : (rem.take bs.toNat).length = bs.toNat := by
        rw [List.length_take]
        omega
      cases rem with
      | nil => simp at hge; omega
      | cons x xs =>
        have hb1 : bs.toNat - 1 + 1 = bs.toNat := by omega
        have hchunks : chunksOf1 (bs.toNat - 1) (x :: xs) =
            (x :: xs).take bs.toNat :: chunksOf1 (bs.toNat - 1) ((x :: xs).drop bs.toNat) := by
          rw [chunksOf1_cons]
          rw [show (x :: xs).take bs.toNat = x :: xs.take (bs.toNat - 1) from by
            rw [← hb1, List.take_succ_cons, Nat.add_sub_cancel]]
          rw [show (x :: xs).drop bs.toNat = xs.drop (bs.toNat - 1) from by
            rw [← hb1, List.drop_succ_cons, Nat.add_sub_cancel]]
        rw [hchunks, getD_eq_headD_drop]
        simp only [processChunksU]
        rcases hck : utilsChunk seconds ((x :: xs).take bs.toNat)
          ((σs.drop k).headD []) base with ⟨btr, res⟩
        cases res with
        | error e => simp [Except.map]
        | ok vs =>
          have hdroplen : ((x :: xs).drop bs.toNat).length < f := by
            rw [List.length_drop]
            simp at h ⊢
            omega
          simp only []
          rw [ih ((x :: xs).drop bs.toNat) (k + 1) (base + bs.toNat)
            (acc ++ vs) (tr ++ btr) hdroplen]
          simp [List.tail_drop, htklen, exceptMap_map, List.append_assoc]

theorem Utils.batch_run_eq (seconds bs : Int) (σs : List (List Nat))
    (hb : 1 ≤ bs.toNat) (tasks : List (Except eps beta)) :
    Utils.execute_batch_with_interval tasks seconds bs σs =
      some (processChunksU seconds (chunksOf1 (bs.toNat - 1) tasks) σs 0) := by
  rw [Utils.execute_batch_with_interval,
    Utils.batchLoop_spec seconds bs σs hb (tasks.length + 1) tasks 0 0 [] []
      (by omega)]
  simp only [List.drop_zero, List.nil_append]
  congr 1
  rcases (processChunksU seconds (chunksOf1 (bs.toNat - 1) tasks) σs 0)
    with ⟨ptr, pres⟩
  cases pres with
  | error e => rfl
  | ok ws => simp [Except.map]

theorem Spider.spiderLoop_spec (seconds bs : Int) (σs : List (List Nat))
    (hb : 1 ≤ bs.toNat) :
    ∀ (fuel : Nat) (rem : List (Except eps beta)) (k base : Nat)
      (acc : List beta) (tr : List Ev), rem.length < fuel →
      Spider.batchLoop seconds bs σs fuel rem k base acc tr =
        some (tr ++
            (processChunksS (chunksOf1 (bs.toNat - 1) rem)
              (σs.drop k) base).1,
          ((processChunksS (chunksOf1 (bs.toNat - 1) rem)
              (σs.drop k) base).2).map (fun ws => acc ++ ws)) := by
  intro fuel
  induction fuel with
  | zero => intro rem k base acc tr h; omega
  | succ f ih =>
    intro rem k base acc tr h
    rw [Spider.batchLoop]
    by_cases hlen : (rem.take bs.toNat).length < bs.toNat
    · rw [if_pos hlen]
      have hremlt : rem.length < bs.toNat := by
        rw [List.length_take] at hlen
        omega
      by_cases hemp : (rem.take bs.toNat).isEmpty
      · rw [if_pos hemp]
        have hnil : rem = [] := by
          rcases List.take_eq_nil_iff.mp (List.isEmpty_iff.mp hemp) with h0 | h0
          · omega
          · exact h0
        subst hnil
        rw [chunksOf1_nil]
        simp [processChunksS, Except.map]
      · rw [if_neg hemp]
        cases rem with
        | nil => simp at hemp
        | cons x xs =>
          have hxs : xs.length < bs.toNat - 1 + 1 := by
            simp at hremlt
            omega
          have htk : (x :: xs).take bs.toNat = x :: xs := by
            apply List.take_of_length_le
            simp
            omega
          have hchunks : chunksOf1 (bs.toNat - 1) (x :: xs) = [x :: xs] := by
            rw [chunksOf1_cons]
            rw [List.take_of_length_le (by omega), List.drop_eq_nil_of_le (by omega),
              chunksOf1_nil]
          rw [htk, hchunks, getD_eq_headD_drop]
          simp only [processChunksS]
          rcases hck : spiderChunk (x :: xs) ((σs.drop k).headD []) base
            with ⟨btr, res⟩
          cases res with
          | error e => simp [Except.map]
          | ok vs => simp [processChunksS, Except.map]
    · rw [if_neg hlen]
      have hge : bs.toNat ≤ rem.length := by
        rw [List.length_take] at hlen
        omega
      have htklen : (rem.take bs.toNat).length = bs.toNat := by
        rw [List.length_take]
        omega
      cases rem with
      | nil => simp at hge; omega
      | cons x xs =>
        have hb1 : bs.toNat - 1 + 1 = bs.toNat := by omega
        have hchunks : chunksOf1 (bs.toNat - 1) (x :: xs) =
            (x :: xs).take bs.toNat :: chunksOf1 (bs.toNat - 1) ((x :: xs).drop bs.toNat) := by
          rw [chunksOf1_cons]
          rw [show (x :: xs).take bs.toNat = x :: xs.take (bs.toNat - 1) from by
            rw [← hb1, List.take_succ_cons, Nat.add_sub_cancel]]
          rw [show (x :: xs).drop bs.toNat = xs.drop (bs.toNat - 1) from by
            rw [← hb1, List.drop_succ_cons, Nat.add_sub_cancel]]
        rw [hchunks, getD_eq_headD_drop]
        simp only [processChunksS]
        rcases hck : spiderChunk ((x :: xs).take bs.toNat)
          ((σs.drop k).headD []) base with ⟨btr, res⟩
        cases res with
        | error e => simp [Except.map]
        | ok vs =>
          have hdroplen : ((x :: xs).drop bs.toNat).length < f := by
            rw [List.length_drop]
            simp at h ⊢
            omega
          simp only []
          rw [ih ((x :: xs).drop bs.toNat) (k + 1) (base + bs.toNat)
            (acc ++ vs) (tr ++ btr) hdroplen]
          simp [List.tail_drop, htklen, exceptMap_map, List.append_assoc]

theorem Spider.spider_run_eq (seconds bs : Int) (σs : List (List Nat))
    (hb : 1 ≤ bs.toNat) (tasks : List (Except eps beta)) :
    Spider.execute_batch_with_interval tasks bs seconds σs =
      some (processChunksS (chunksOf1 (bs.toNat - 1) tasks) σs 0) := by
  rw [Spider.execute_batch_with_interval,
    Spider.spiderLoop_spec seconds bs σs hb (tasks.length + 1) tasks 0 0 [] []
      (by omega)]
  simp only [List.drop_zero, List.nil_append]
  congr 1
  rcases (processChunksS (chunksOf1 (bs.toNat - 1) tasks) σs 0)
    with ⟨ptr, pres⟩
  cases pres with
  | error e => rfl
  | ok ws => simp [Except.map]

theorem processChunksU_ok (seconds : Int) (hsec : 1 < seconds) :
    ∀ (cs : List (List beta)) (σs : List (List Nat)) (base : Nat),
      schedFits σs (cs.map (List.map (Except.ok : beta → Except eps beta))) = true →
      processChunksU seconds
          (cs.map (List.map (Except.ok : beta → Except eps beta))) σs base =
        (utilsBlocks (cs.map List.length) base, Except.ok cs.flatten) := by
  intro cs
  induction cs with
  | nil =>
    intro σs base _
    simp [processChunksU, utilsBlocks]
  | cons w cs ih =>
    intro σs base hfit
    cases σs with
    | nil => simp [schedFits] at hfit
    | cons σ σs' =>
      simp only [List.map_cons, schedFits, Bool.and_eq_true,
        decide_eq_true_eq] at hfit
      obtain ⟨hperm, hrest⟩ := hfit
      have hperm' : σ.Perm (List.range w.length) := by
        simpa using hperm
      simp only [List.map_cons, processChunksU, List.headD_cons, List.tail_cons]
      rw [utilsChunk_ok seconds hsec w σ hperm' base]
      simp only []
      rw [show ((w.map (Except.ok : beta → Except eps beta)).length) = w.length from
        List.length_map _ _]
      rw [ih σs' (base + w.length) hrest]
      simp [utilsBlocks, Except.map]

theorem processChunksS_ok :
    ∀ (cs : List (List beta)) (σs : List (List Nat)) (base : Nat),
      schedFits σs (cs.map (List.map (Except.ok : beta → Except eps beta))) = true →
      processChunksS
          (cs.map (List.map (Except.ok : beta → Except eps beta))) σs base =
        (spiderBlocks (cs.map List.length) base, Except.ok cs.flatten) := by
  intro cs
  induction cs with
  | nil =>
    intro σs base _
    simp [processChunksS, spiderBlocks]
  | cons w cs ih =>
    intro σs base hfit
    cases σs with
    | nil => simp [schedFits] at hfit
    | cons σ σs' =>
      simp only [List.map_cons, schedFits, Bool.and_eq_true,
        decide_eq_true_eq] at hfit
      obtain ⟨hperm, hrest⟩ := hfit
      have hperm' : σ.Perm (List.range w.length) := by
        simpa using hperm
      simp only [List.map_cons, processChunksS, List.headD_cons, List.tail_cons]
      rw [spiderChunk_ok w σ hperm' base]
      simp only []
      rw [show ((w.map (Except.ok : beta → Except eps beta)).length) = w.length from
        List.length_map _ _]
      rw [ih σs' (base + w.length) hrest]
      simp [spiderBlocks, Except.map]

theorem processChunksU_err (seconds : Int) (hsec : 1 < seconds) :
    ∀ (cs : List (List (Except eps beta))) (σs : List (List Nat)) (base : Nat),
      schedFits σs cs = true →
      (∃ c0 ∈ cs, ∃ e, Except.error e ∈ c0) →
      ∃ e', (processChunksU seconds cs σs base).2 = Except.error e' := by
  intro cs
  induction cs with
  | nil =>
    intro σs base _ hmem
    rcases hmem with ⟨c0, hc0, _⟩
    exact absurd hc0 (List.not_mem_nil c0)
  | cons ch cs ih =>
    intro σs base hfit hmem
    cases σs with
    | nil => simp [schedFits] at hfit
    | cons σ σs' =>
      simp only [schedFits, Bool.and_eq_true, decide_eq_true_eq] at hfit
      obtain ⟨hperm, hrest⟩ := hfit
      rcases hmem with ⟨c0, hc0, e, hemem⟩
      rcases List.mem_cons.mp hc0 with hhead | htail
      · subst hhead
        obtain ⟨e', he'⟩ := utilsChunk_err seconds hsec c0 e σ hperm hemem base
        refine ⟨RunError.taskFailed e', ?_⟩
        simp only [processChunksU, List.headD_cons, he']
      · rcases hck : utilsChunk seconds ch σ base with ⟨btr, res⟩
        cases res with
        | error e2 =>
          refine ⟨e2, ?_⟩
          simp only [processChunksU, List.headD_cons, hck]
        | ok vs =>
          obtain ⟨e', he'⟩ := ih σs' (base + ch.length) hrest ⟨c0, htail, e, hemem⟩
          refine ⟨e', ?_⟩
          simp only [processChunksU, List.headD_cons, List.tail_cons, hck]
          rw [he']
          rfl

theorem processChunks_results_eq (seconds : Int) (hsec : 1 < seconds) :
    ∀ (cs : List (List (Except eps beta))) (σs : List (List Nat)) (base : Nat),
      (processChunksU seconds cs σs base).2 = (processChunksS cs σs base).2 := by
  intro cs
  induction cs with
  | nil => intro σs base; rfl
  | cons ch cs ih =>
    intro σs base
    have hch : (utilsChunk seconds ch (σs.headD []) base).2 =
        (spiderChunk ch (σs.headD []) base).2 := by
      unfold utilsChunk spiderChunk
      rw [if_neg (by omega)]
      cases hg : gatherStep ch (σs.headD []) with
      | error e => rfl
      | ok slots => rfl
    rcases hu : utilsChunk seconds ch (σs.headD []) base with ⟨ubtr, ures⟩
    rcases hs : spiderChunk ch (σs.headD []) base with ⟨sbtr, sres⟩
    rw [hu, hs] at hch
    simp only [] at hch
    subst hch
    simp only [processChunksU, processChunksS, hu, hs]
    cases ures with
    | error e => rfl
    | ok vs =>
      simp only []
      rw [ih σs.tail (base + ch.length)]

theorem count_sleepStart_taskStarts (idxs : List Nat) :
    (idxs.map Ev.taskStart).count Ev.sleepStart = 0 := by
  rw [List.count_eq_zero]
  intro hmem
  rcases List.mem_map.mp hmem with ⟨j, _, hj⟩
  simp at hj

theorem count_sleepStart_taskDones (idxs : List Nat) :
    (idxs.map Ev.taskDone).count Ev.sleepStart = 0 := by
  rw [List.count_eq_zero]
  intro hmem
  rcases List.mem_map.mp hmem with ⟨j, _, hj⟩
  simp at hj

theorem count_sleepStart_utilsBlock (base n : Nat) :
    (utilsBlock base n).count Ev.sleepStart = 1 := by
  unfold utilsBlock
  rw [List.count_cons, List.count_append, List.count_cons,
    count_sleepStart_taskStarts, count_sleepStart_taskDones]
  simp

theorem count_sleepStart_utilsBlocks :
    ∀ (ns : List Nat) (base : Nat),
      (utilsBlocks ns base).count Ev.sleepStart = ns.length := by
  intro ns
  induction ns with
  | nil => intro base; rfl
  | cons n ns ih =>
    intro base
    rw [utilsBlocks, List.count_append, count_sleepStart_utilsBlock, ih]
    simp [Nat.add_comm]

theorem noStartInSleep_taskStarts (idxs : List Nat) (r : List Ev) :
    noStartInSleep false (idxs.map Ev.taskStart ++ r) = noStartInSleep false r := by
  induction idxs with
  | nil => rfl
  | cons i idxs ih => simpa [noStartInSleep] using ih

theorem noStartInSleep_taskDones (ins : Bool) (idxs : List Nat) (r : List Ev) :
    noStartInSleep ins (idxs.map Ev.taskDone ++ r) = noStartInSleep ins r := by
  induction idxs with
  | nil => rfl
  | cons i idxs ih => simpa [noStartInSleep] using ih

theorem noStartInSleep_spiderBlocks :
    ∀ (ns : List Nat) (base : Nat),
      noStartInSleep false (spiderBlocks ns base) = true := by
  intro ns
  induction ns with
  | nil => intro base; rfl
  | cons n ns ih =>
    intro base
    rw [spiderBlocks, spiderBlock]
    show noStartInSleep false
      ((Ev.sleepStart :: Ev.sleepEnd ::
        ((startIdxs base n).map Ev.taskStart ++ (startIdxs base n).map Ev.taskDone)) ++
        spiderBlocks ns (base + n)) = true
    rw [List.cons_append, List.cons_append, List.append_assoc]
    show noStartInSleep false
      ((startIdxs base n).map Ev.taskStart ++
        ((startIdxs base n).map Ev.taskDone ++ spiderBlocks ns (base + n))) = true
    rw [noStartInSleep_taskStarts, noStartInSleep_taskDones]
    exact ih (base + n)

theorem noStartInSleep_utilsBlocks_head (n : Nat) (ns : List Nat) (base : Nat) :
    noStartInSleep false (utilsBlocks ((n + 1) :: ns) base) = false := by
  rw [utilsBlocks, utilsBlock, startIdxs, List.range_succ_eq_map]
  simp [noStartInSleep]

theorem inFlight_taskStarts (idxs : List Nat) (r : List Ev) :
    ∀ (cur mx : Nat), cur ≤ mx →
      inFlight cur mx (idxs.map Ev.taskStart ++ r) =
        inFlight (cur + idxs.length) (max mx (cur + idxs.length)) r := by
  induction idxs with
  | nil =>
    intro cur mx hle
    simp [Nat.max_eq_left hle]
  | cons i idxs ih =>
    intro cur mx hle
    show inFlight (cur + 1) (max mx (cur + 1)) (idxs.map Ev.taskStart ++ r) = _
    rw [ih (cur + 1) (max mx (cur + 1)) (Nat.le_max_right _ _)]
    simp only [List.length_cons]
    rw [show cur + 1 + idxs.length = cur + (idxs.length + 1) from by omega,
      show max (max mx (cur + 1)) (cur + (idxs.length + 1)) =
        max mx (cur + (idxs.length + 1)) from by omega]

theorem inFlight_taskDones (idxs : List Nat) (r : List Ev) :
    ∀ (cur mx : Nat),
      inFlight cur mx (idxs.map Ev.taskDone ++ r) =
        inFlight (cur - idxs.length) mx r := by
  induction idxs with
  | nil => intro cur mx; simp
  | cons i idxs ih =>
    intro cur mx
    show inFlight (cur - 1) mx (idxs.map Ev.taskDone ++ r) = _
    rw [ih (cur - 1) mx]
    have : cur - 1 - idxs.length = cur - (idxs.length + 1) := by omega
    rw [this]
    simp

theorem inFlight_utilsBlock (base n : Nat) (r : List Ev) (cur mx : Nat)
    (hle : cur ≤ mx) :
    inFlight cur mx (utilsBlock base n ++ r) =
      inFlight cur (max mx (cur + n)) r := by
  rw [utilsBlock]
  show inFlight cur mx
    ((Ev.sleepStart :: ((startIdxs base n).map Ev.taskStart ++
      (Ev.sleepEnd :: (startIdxs base n).map Ev.taskDone))) ++ r) = _
  rw [List.cons_append, List.append_assoc]
  show inFlight cur mx ((startIdxs base n).map Ev.taskStart ++
    ((Ev.sleepEnd :: (startIdxs base n).map Ev.taskDone) ++ r)) = _
  rw [inFlight_taskStarts _ _ cur mx hle]
  rw [List.cons_append]
  show inFlight (cur + (startIdxs base n).length)
    (max mx (cur + (startIdxs base n).length))
    ((startIdxs base n).map Ev.taskDone ++ r) = _
  rw [inFlight_taskDones]
  have hlen : (startIdxs base n).length = n := by
    rw [startIdxs, List.length_map, List.length_range]
  rw [hlen]
  have : cur + n - n = cur := by omega
  rw [this]

theorem inFlight_utilsBlocks_le :
    ∀ (ns : List Nat) (base cur mx b : Nat), cur ≤ mx →
      (∀ n ∈ ns, n ≤ b) →
      inFlight cur mx (utilsBlocks ns base) ≤ max mx (cur + b) := by
  intro ns
  induction ns with
  | nil =>
    intro base cur mx b hle _
    show mx ≤ max mx (cur + b)
    exact Nat.le_max_left _ _
  | cons n ns ih =>
    intro base cur mx b hle hbound
    rw [utilsBlocks, inFlight_utilsBlock base n _ cur mx hle]
    have h1 : inFlight cur (max mx (cur + n)) (utilsBlocks ns (base + n)) ≤
        max (max mx (cur + n)) (cur + b) :=
      ih (base + n) cur (max mx (cur + n)) b (by omega)
        (fun m hm => hbound m (List.mem_cons_of_mem n hm))
    have h2 : max (max mx (cur + n)) (cur + b) = max mx (cur + b) := by
      have : n ≤ b := hbound n (List.mem_cons_self n ns)
      omega
    rw [h2] at h1
    exact h1

theorem Utils.seqLoop_ok (seconds : Int) (hsec : 1 < seconds) :
    ∀ (ws : List beta) (i : Nat) (acc : List beta) (tr : List Ev),
      Utils.seqLoop seconds (ws.map (Except.ok : beta → Except eps beta)) i acc tr =
        (tr ++ seqBlocks i ws.length, Except.ok (acc ++ ws)) := by
  intro ws
  induction ws with
  | nil => intro i acc tr; simp [Utils.seqLoop, seqBlocks]
  | cons w ws ih =>
    intro i acc tr
    simp only [List.map_cons, Utils.seqLoop]
    have hs : Utils.sleep_and_execute seconds (Except.ok w : Except eps beta) i =
        ([Ev.sleepStart, Ev.sleepEnd, Ev.taskStart i, Ev.taskDone i],
          Except.ok w) := by
      unfold Utils.sleep_and_execute
      rw [if_neg (by omega)]
    rw [hs]
    simp only []
    rw [ih (i + 1) (acc ++ [w]) _]
    simp [seqBlocks, List.append_assoc]

theorem Utils.seqLoop_err (seconds : Int) :
    ∀ (ts : List (Except eps beta)) (i : Nat) (acc : List beta) (tr : List Ev)
      (e : eps), Except.error e ∈ ts →
      ∃ e', (Utils.seqLoop seconds ts i acc tr).2 = Except.error e' := by
  intro ts
  induction ts with
  | nil =>
    intro i acc tr e h
    exact absurd h (List.not_mem_nil _)
  | cons t ts ih =>
    intro i acc tr e hmem
    by_cases hsec : seconds ≤ 1
    · refine ⟨RunError.invalidWindow, ?_⟩
      simp only [Utils.seqLoop]
      have hse : Utils.sleep_and_execute seconds t i =
          ([], Except.error RunError.invalidWindow) := by
        unfold Utils.sleep_and_execute
        rw [if_pos hsec]
      rw [hse]
    · cases t with
      | error e0 =>
        refine ⟨RunError.taskFailed e0, ?_⟩
        simp only [Utils.seqLoop]
        have hse : Utils.sleep_and_execute seconds
            (Except.error e0 : Except eps beta) i =
            ([Ev.sleepStart, Ev.sleepEnd, Ev.taskStart i],
              Except.error (RunError.taskFailed e0)) := by
          unfold Utils.sleep_and_execute
          rw [if_neg hsec]
        rw [hse]
      | ok v =>
        have hts : Except.error e ∈ ts := by
          rcases List.mem_cons.mp hmem with hh | hh
          · exact absurd hh (by simp)
          · exact hh
        simp only [Utils.seqLoop]
        have hse : Utils.sleep_and_execute seconds
            (Except.ok v : Except eps beta) i =
            ([Ev.sleepStart, Ev.sleepEnd, Ev.taskStart i, Ev.taskDone i],
              Except.ok v) := by
          unfold Utils.sleep_and_execute
          rw [if_neg hsec]
        rw [hse]
        exact ih (i + 1) (acc ++ [v]) _ e hts

theorem count_sleepStart_seqBlocks :
    ∀ (n i : Nat), (seqBlocks i n).count Ev.sleepStart = n := by
  intro n
  induction n with
  | zero => intro i; rfl
  | succ m ih =>
    intro i
    rw [seqBlocks]
    rw [List.count_cons, List.count_cons, List.count_cons, List.count_cons, ih]
    simp

theorem Utils.batch_ok_all (seconds bs : Int) (σs : List (List Nat))
    (hb : 1 ≤ bs.toNat) (hsec : 1 < seconds) (vs : List beta)
    (hσ : SchedOK σs bs (vs.map (Except.ok : beta → Except eps beta))) :
    Utils.execute_batch_with_interval
        (vs.map (Except.ok : beta → Except eps beta)) seconds bs σs =
      some (utilsBlocks ((chunksOf1 (bs.toNat - 1) vs).map List.length) 0,
        Except.ok vs) := by
  have hfit : schedFits σs ((chunksOf1 (bs.toNat - 1) vs).map
      (List.map (Except.ok : beta → Except eps beta))) = true := by
    have h0 := hσ
    rw [SchedOK, chunksOf1_map] at h0
    exact h0
  rw [Utils.batch_run_eq seconds bs σs hb, chunksOf1_map,
    processChunksU_ok seconds hsec _ σs 0 hfit, chunksOf1_flatten]

theorem Utils.batchResults_ok_all (seconds bs : Int) (σs : List (List Nat))
    (hb : 1 ≤ bs.toNat) (hsec : 1 < seconds) (vs : List beta)
    (hσ : SchedOK σs bs (vs.map (Except.ok : beta → Except eps beta))) :
    Utils.batchResults (vs.map (Except.ok : beta → Except eps beta))
      seconds bs σs = Except.ok vs := by
  rw [Utils.batchResults, Utils.batch_ok_all seconds bs σs hb hsec vs hσ]

theorem Utils.batchTrace_ok_all (seconds bs : Int) (σs : List (List Nat))
    (hb : 1 ≤ bs.toNat) (hsec : 1 < seconds) (vs : List beta)
    (hσ : SchedOK σs bs (vs.map (Except.ok : beta → Except eps beta))) :
    Utils.batchTrace (vs.map (Except.ok : beta → Except eps beta))
      seconds bs σs =
      utilsBlocks ((chunksOf1 (bs.toNat - 1) vs).map List.length) 0 := by
  rw [Utils.batchTrace, Utils.batch_ok_all seconds bs σs hb hsec vs hσ]

theorem Spider.spider_ok_all (seconds bs : Int) (σs : List (List Nat))
    (hb : 1 ≤ bs.toNat) (vs : List beta)
    (hσ : SchedOK σs bs (vs.map (Except.ok : beta → Except eps beta))) :
    Spider.execute_batch_with_interval
        (vs.map (Except.ok : beta → Except eps beta)) bs seconds σs =
      some (spiderBlocks ((chunksOf1 (bs.toNat - 1) vs).map List.length) 0,
        Except.ok vs) := by
  have hfit : schedFits σs ((chunksOf1 (bs.toNat - 1) vs).map
      (List.map (Except.ok : beta → Except eps beta))) = true := by
    have h0 := hσ
    rw [SchedOK, chunksOf1_map] at h0
    exact h0
  rw [Spider.spider_run_eq seconds bs σs hb, chunksOf1_map,
    processChunksS_ok _ σs 0 hfit, chunksOf1_flatten]

theorem Utils.batchResults_err (seconds bs : Int) (σs : List (List Nat))
    (hb : 1 ≤ bs.toNat) (hsec : 1 < seconds)
    (tasks : List (Except eps beta)) (e : eps)
    (hσ : SchedOK σs bs tasks) (hmem : Except.error e ∈ tasks) :
    ∃ e', Utils.batchResults tasks seconds bs σs = Except.error e' := by
  have hchunks : ∃ c0 ∈ chunksOf1 (bs.toNat - 1) tasks,
      ∃ e0, Except.error e0 ∈ c0 := by
    have hfl : Except.error e ∈ (chunksOf1 (bs.toNat - 1) tasks).flatten := by
      rw [chunksOf1_flatten]
      exact hmem
    rcases List.mem_flatten.mp hfl with ⟨c0, hc0, hmem0⟩
    exact ⟨c0, hc0, e, hmem0⟩
  obtain ⟨e', he'⟩ := processChunksU_err seconds hsec
    (chunksOf1 (bs.toNat - 1) tasks) σs 0 hσ hchunks
  refine ⟨e', ?_⟩
  rw [Utils.batchResults, Utils.batch_run_eq seconds bs σs hb]
  rcases hP : processChunksU seconds (chunksOf1 (bs.toNat - 1) tasks) σs 0
    with ⟨ptr, pres⟩
  rw [hP] at he'
  exact he'

theorem get_books_ok (O : Oracles eps) (σs : List (List Nat)) (url : String)
    (html : String) (recf : String → BookRecord)
    (hfetch : O.fetchPage url = Except.ok html)
    (hdet : ∀ l ∈ O.linksOf html, get_book_data O l = Except.ok (recf l))
    (hσ : SchedOK σs 10 ((O.linksOf html).map (get_book_data O))) :
    get_books O σs url = Except.ok ((O.linksOf html).map recf) := by
  have htasks : (O.linksOf html).map (get_book_data O) =
      ((O.linksOf html).map recf).map
        (Except.ok : BookRecord → Except (SpiderErr eps) BookRecord) := by
    rw [List.map_map]
    apply List.map_congr_left
    intro l hl
    exact hdet l hl
  rw [get_books, hfetch]
  rw [htasks] at hσ
  simp only [htasks]
  rw [Utils.batchResults_ok_all 2 10 σs (by decide) (by norm_num) _ hσ]
  rfl

theorem pageTasks_ok (O : Oracles eps) (schedD : Nat → List (List Nat))
    (H : Nat → String) (recf : String → BookRecord)
    (hfetch : ∀ i ∈ List.range' 1 50, O.fetchPage (pageURL i) = Except.ok (H i))
    (hdet : ∀ l, get_book_data O l = Except.ok (recf l))
    (hσ : ∀ i ∈ List.range' 1 50,
      SchedOK (schedD i) 10 ((O.linksOf (H i)).map (get_book_data O))) :
    pageTasks O schedD =
      ((List.range' 1 50).map (fun i => (O.linksOf (H i)).map recf)).map
        (Except.ok : List BookRecord → Except (SpiderErr eps) (List BookRecord)) := by
  rw [pageTasks, List.map_map]
  apply List.map_congr_left
  intro i hi
  show get_books O (schedD i) (pageURL i) = Except.ok ((O.linksOf (H i)).map recf)
  exact get_books_ok O (schedD i) (pageURL i) (H i) recf (hfetch i hi)
    (fun l _ => hdet l) (hσ i hi)

theorem mainResult_ok (O : Oracles eps) (schedD : Nat → List (List Nat))
    (H : Nat → String) (recf : String → BookRecord)
    (hfetch : ∀ i ∈ List.range' 1 50, O.fetchPage (pageURL i) = Except.ok (H i))
    (hdet : ∀ l, get_book_data O l = Except.ok (recf l))
    (hσ : ∀ i ∈ List.range' 1 50,
      SchedOK (schedD i) 10 ((O.linksOf (H i)).map (get_book_data O))) :
    mainResult O schedD =
      Except.ok
        (((List.range' 1 50).map (fun i => (O.linksOf (H i)).map recf)).flatten) ∧
    (Utils.seqTrace (pageTasks O schedD) 2).count Ev.sleepStart = 50 := by
  have hpt := pageTasks_ok O schedD H recf hfetch hdet hσ
  have hloop := @Utils.seqLoop_ok (SpiderErr eps) (List BookRecord) 2 (by norm_num)
    ((List.range' 1 50).map (fun i => (O.linksOf (H i)).map recf)) 0 [] []
  constructor
  · rw [mainResult, Utils.seqResults, Utils.execute_with_interval, hpt, hloop]
    simp [Except.mapError, Except.map]
  · rw [Utils.seqTrace, Utils.execute_with_interval, hpt, hloop]
    simp only [List.nil_append]
    rw [count_sleepStart_seqBlocks]
    simp [List.length_range']

theorem mainResult_err (O : Oracles eps) (schedD : Nat → List (List Nat))
    (p : Nat) (hp : p ∈ List.range' 1 50) (e : SpiderErr eps)
    (hpe : get_books O (schedD p) (pageURL p) = Except.error e) :
    (∃ e', mainResult O schedD = Except.error e') ∧
      booksCsv O schedD = none := by
  have hmem : Except.error e ∈ pageTasks O schedD := by
    rw [pageTasks]
    exact List.mem_map.mpr ⟨p, hp, hpe⟩
  obtain ⟨e', he'⟩ :=
    Utils.seqLoop_err 2 (pageTasks O schedD) 0 [] [] e hmem
  have hmain : mainResult O schedD = Except.error (flattenErr e') := by
    rw [mainResult, Utils.seqResults, Utils.execute_with_interval]
    rcases hsl : Utils.seqLoop 2 (pageTasks O schedD) 0 [] [] with ⟨tr2, res2⟩
    rw [hsl] at he'
    simp only [] at he'
    subst he'
    rfl
  refine ⟨⟨flattenErr e', hmain⟩, ?_⟩
  rw [booksCsv, hmain]

theorem foldl_fillStep_length (chunk : List (Except eps beta)) :
    ∀ (σ : List Nat) (slots : List (Option beta)),
      (σ.foldl (fillStep chunk) slots).length = slots.length := by
  intro σ
  induction σ with
  | nil => intro slots; rfl
  | cons i σ' ih =>
    intro slots
    rw [List.foldl_cons, ih (fillStep chunk slots i), fillStep_length]

theorem fillSlots_nil (σ : List Nat) :
    fillSlots ([] : List (Except eps beta)) σ = [] := by
  apply List.eq_nil_of_length_eq_zero
  rw [fillSlots, foldl_fillStep_length]
  rfl

theorem gatherStep_nil (σ : List Nat) :
    gatherStep ([] : List (Except eps beta)) σ = Except.ok [] := by
  unfold gatherStep
  rw [show firstErr ([] : List (Except eps beta)) σ = none from
    firstErr_ok ([] : List beta) σ, fillSlots_nil]

theorem utilsChunk_nil (seconds : Int) (hsec : 1 < seconds) (σ : List Nat)
    (base : Nat) :
    utilsChunk seconds ([] : List (Except eps beta)) σ base =
      (utilsBlock base 0, Except.ok []) := by
  unfold utilsChunk
  rw [if_neg (by omega), gatherStep_nil]
  rfl

theorem Utils.batchLoop_diverges (seconds bs : Int) (σs : List (List Nat))
    (hbz : bs.toNat = 0) (hsec : 1 < seconds) :
    ∀ (fuel : Nat) (rem : List (Except eps beta)) (k base : Nat)
      (acc : List beta) (tr : List Ev),
      Utils.batchLoop seconds bs σs fuel rem k base acc tr = none := by
  intro fuel
  induction fuel with
  | zero => intro rem k base acc tr; rfl
  | succ f ih =>
    intro rem k base acc tr
    rw [Utils.batchLoop, hbz]
    simp only [List.take_zero, List.length_nil, Nat.lt_irrefl, if_false]
    rw [utilsChunk_nil seconds hsec (σs.getD k []) base]
    simp only [List.drop_zero]
    exact ih rem (k + 1) (base + 0) (acc ++ []) (tr ++ utilsBlock base 0)

theorem Utils.empty_run (seconds bs : Int) (σs : List (List Nat))
    (hb : 1 ≤ bs.toNat) :
    Utils.execute_batch_with_interval ([] : List (Except eps beta))
      seconds bs σs = some ([], Except.ok []) := by
  rw [Utils.execute_batch_with_interval]
  show Utils.batchLoop seconds bs σs (0 + 1) [] 0 0 [] [] = _
  rw [Utils.batchLoop]
  rw [if_pos (by simp; omega)]
  simp [List.take_nil]

theorem Utils.batch_invalid_run (seconds bs : Int) (σs : List (List Nat))
    (hsec : seconds ≤ 1) (hb : 1 ≤ bs.toNat) (t : Except eps beta)
    (ts : List (Except eps beta)) :
    Utils.execute_batch_with_interval (t :: ts) seconds bs σs =
      some ([], Except.error RunError.invalidWindow) := by
  have hchunk : ∀ (batch : List (Except eps beta)) (σ : List Nat) (base : Nat),
      utilsChunk seconds batch σ base = ([], Except.error RunError.invalidWindow) := by
    intro batch σ base
    unfold utilsChunk
    rw [if_pos hsec]
  have htake : (t :: ts).take bs.toNat = t :: ts.take (bs.toNat - 1) := by
    rw [show bs.toNat = bs.toNat - 1 + 1 from by omega, List.take_succ_cons,
      Nat.add_sub_cancel]
  rw [Utils.execute_batch_with_interval]
  show Utils.batchLoop seconds bs σs (ts.length + 1 + 1) (t :: ts) 0 0 [] [] = _
  rw [Utils.batchLoop]
  by_cases hlen : ((t :: ts).take bs.toNat).length < bs.toNat
  · rw [if_pos hlen]
    rw [if_neg (by rw [htake]; simp)]
    rw [hchunk]
    rfl
  · rw [if_neg hlen]
    rw [hchunk]
    rfl

theorem processChunksS_no_invalid :
    ∀ (cs : List (List (Except eps beta))) (σs : List (List Nat)) (base : Nat),
      (processChunksS cs σs base).2 ≠
        Except.error (RunError.invalidWindow : RunError eps) := by
  intro cs
  induction cs with
  | nil => intro σs base h; simp [processChunksS] at h
  | cons ch cs ih =>
    intro σs base
    simp only [processChunksS]
    rcases hck : spiderChunk ch (σs.headD []) base with ⟨btr, res⟩
    have hres : res ≠ Except.error (RunError.invalidWindow : RunError eps) := by
      unfold spiderChunk at hck
      cases hg : gatherStep ch (σs.headD []) with
      | error e =>
        rw [hg] at hck
        have : res = Except.error (RunError.taskFailed e) := by
          have := congrArg Prod.snd hck
          simpa using this.symm
        rw [this]
        intro hcon
        simp at hcon
      | ok slots =>
        rw [hg] at hck
        have : res = Except.ok slots.reduceOption := by
          have := congrArg Prod.snd hck
          simpa using this.symm
        rw [this]
        intro hcon
        simp at hcon
    cases res with
    | error e =>
      intro hcon
      simp only [] at hcon
      exact hres hcon
    | ok vs =>
      intro hcon
      simp only [] at hcon
      rcases hrest : (processChunksS cs σs.tail (base + ch.length)) with ⟨rtr, rres⟩
      rw [hrest] at hcon
      cases rres with
      | error e2 =>
        have h2 := ih σs.tail (base + ch.length)
        rw [hrest] at h2
        simp only [Except.map] at hcon
        exact h2 (by simpa using hcon)
      | ok ws => simp [Except.map] at hcon

theorem Spider.no_invalid (seconds bs : Int) (σs : List (List Nat))
    (tasks : List (Except eps beta)) (hb : 1 ≤ bs.toNat) :
    Spider.batchResults tasks bs seconds σs ≠
      Except.error RunError.invalidWindow := by
  rw [Spider.batchResults, Spider.spider_run_eq seconds bs σs hb]
  rcases hP : processChunksS (chunksOf1 (bs.toNat - 1) tasks) σs 0
    with ⟨ptr, pres⟩
  have h2 := processChunksS_no_invalid (chunksOf1 (bs.toNat - 1) tasks) σs 0
  rw [hP] at h2
  exact h2

/-- C1: for every finite sequence of tasks that all succeed, every
`batch_size ≥ 1` and valid delay bound, `utils.execute_batch_with_interval`
returns exactly the tasks' results — same length as the input, in input
order, each task consumed exactly once — for every completion schedule of
the concurrent batches, i.e. regardless of which concurrent task within a
batch completes first. -/
theorem runBatched_output_matches_input {eps beta : Type} (seconds bs : Int)
    (σs : List (List Nat)) (vs : List beta)
    (hb : 1 ≤ bs) (hsec : 1 < seconds)
    (hσ : SchedOK σs bs (vs.map (Except.ok : beta → Except eps beta))) :
    Utils.batchResults (vs.map (Except.ok : beta → Except eps beta))
      seconds bs σs = Except.ok vs :=
  Utils.batchResults_ok_all seconds bs σs (by omega) hsec vs hσ

/-- Witness for C1: three tasks, batch size 2, with the first batch
completing in reversed order. -/
theorem runBatched_output_matches_input_witness :
    Utils.batchResults
        ([10, 20, 30].map (Except.ok : Nat → Except Unit Nat)) 2 2
        [[1, 0], [0]] = Except.ok [10, 20, 30] :=
  runBatched_output_matches_input 2 2 [[1, 0], [0]] [10, 20, 30]
    (by decide) (by decide) (by decide)

/-- C2: for every `batch_size ≥ 1`, a successful run of
`utils.execute_batch_with_interval` over `N` tasks sleeps exactly
`ceil(N / batch_size)` times (one sleep per batch, sampled in
`sleep_and_execute`), and on an empty task sequence the loop breaks at the
first `StopIteration` with an empty trace — zero delays, zero task events —
returning an empty result. -/
theorem runBatched_delay_count {eps beta : Type} (seconds bs : Int)
    (σs : List (List Nat)) (vs : List beta)
    (hb : 1 ≤ bs) (hsec : 1 < seconds)
    (hσ : SchedOK σs bs (vs.map (Except.ok : beta → Except eps beta))) :
    (Utils.batchTrace (vs.map (Except.ok : beta → Except eps beta))
        seconds bs σs).count Ev.sleepStart =
      (vs.length + bs.toNat - 1) / bs.toNat ∧
    Utils.batchTrace ([] : List (Except eps beta)) seconds bs σs = [] ∧
    Utils.batchResults ([] : List (Except eps beta)) seconds bs σs =
      Except.ok [] := by
  have hb' : 1 ≤ bs.toNat := by omega
  refine ⟨?_, ?_, ?_⟩
  · rw [Utils.batchTrace_ok_all seconds bs σs hb' hsec vs hσ,
      count_sleepStart_utilsBlocks, List.length_map, chunksOf1_length]
    rw [show vs.length + (bs.toNat - 1) = vs.length + bs.toNat - 1 from by omega,
      show bs.toNat - 1 + 1 = bs.toNat from by omega]
  · rw [Utils.batchTrace, Utils.empty_run seconds bs σs hb']
  · rw [Utils.batchResults, Utils.empty_run seconds bs σs hb']

/-- Witness for C2: five tasks at batch size 2 sleep exactly 3 times. -/
theorem runBatched_delay_count_witness :
    (Utils.batchTrace
        ([5, 6, 7, 8, 9].map (Except.ok : Nat → Except Unit Nat)) 2 2
        [[0, 1], [1, 0], [0]]).count Ev.sleepStart =
      (5 + (2 : Int).toNat - 1) / (2 : Int).toNat ∧
    Utils.batchTrace ([] : List (Except Unit Nat)) 2 2 [[0, 1], [1, 0], [0]] = [] ∧
    Utils.batchResults ([] : List (Except Unit Nat)) 2 2 [[0, 1], [1, 0], [0]] =
      Except.ok [] :=
  runBatched_delay_count 2 2 [[0, 1], [1, 0], [0]] [5, 6, 7, 8, 9]
    (by decide) (by decide) (by decide)

/-- C9: for every task list, batch size ≥ 1 and delay bound `seconds > 1`,
the `utils.py` implementation of `execute_batch_with_interval` and the
near-duplicate inlined in `book spider/book_spider.py` return the same value
(the same result list in the same order, or the same exception), for the
same completion schedules — the variant is result-equivalent up to timing. -/
theorem variant_result_equivalence {eps beta : Type} (seconds bs : Int)
    (σs : List (List Nat)) (tasks : List (Except eps beta))
    (hb : 1 ≤ bs) (hsec : 1 < seconds) :
    Utils.batchResults tasks seconds bs σs =
      Spider.batchResults tasks bs seconds σs := by
  have hb' : 1 ≤ bs.toNat := by omega
  rw [Utils.batchResults, Spider.batchResults,
    Utils.batch_run_eq seconds bs σs hb', Spider.spider_run_eq seconds bs σs hb']
  rcases hU : processChunksU seconds (chunksOf1 (bs.toNat - 1) tasks) σs 0
    with ⟨utr, ures⟩
  rcases hS : processChunksS (chunksOf1 (bs.toNat - 1) tasks) σs 0
    with ⟨str2, sres⟩
  have heq := processChunks_results_eq seconds hsec
    (chunksOf1 (bs.toNat - 1) tasks) σs 0
  rw [hU, hS] at heq
  simpa using heq

/-- Witness for C9: a mixed success/failure task list at batch size 2. -/
theorem variant_result_equivalence_witness :
    Utils.batchResults
        [Except.ok 1, (Except.error "boom" : Except String Nat), Except.ok 3]
        2 2 [[1, 0], [0]] =
      Spider.batchResults
        [Except.ok 1, (Except.error "boom" : Except String Nat), Except.ok 3]
        2 2 [[1, 0], [0]] :=
  variant_result_equivalence 2 2 [[1, 0], [0]]
    [Except.ok 1, Except.error "boom", Except.ok 3] (by decide) (by decide)

/-- C10: `utils.execute_batch_with_interval` terminates for every finite task
sequence when `batch_size ≥ 1` (fuel `N + 1` suffices for its loop), and for
`batch_size ≤ 0` — where `range(batch_size)` is empty, so no `next` is ever
issued and `StopIteration` can never fire — the loop diverges for any fuel,
repeatedly sleeping and gathering an empty batch, even on an empty task
sequence. -/
theorem batch_loop_termination {eps beta : Type} (seconds bs : Int)
    (σs : List (List Nat)) (tasks : List (Except eps beta)) :
    (1 ≤ bs →
      (Utils.execute_batch_with_interval tasks seconds bs σs).isSome = true) ∧
    (bs ≤ 0 → 1 < seconds →
      ∀ (fuel k base : Nat) (acc : List beta) (tr : List Ev),
        Utils.batchLoop seconds bs σs fuel tasks k base acc tr = none) := by
  constructor
  · intro hb
    rw [Utils.batch_run_eq seconds bs σs (by omega) tasks]
    rfl
  · intro hble hsec fuel k base acc tr
    exact Utils.batchLoop_diverges seconds bs σs (by omega) hsec
      fuel tasks k base acc tr

/-- Witness for C10: a two-task run at batch size 2 terminates; with batch
size -1 the loop returns no result even with fuel 5 and no tasks. -/
theorem batch_loop_termination_witness :
    ((Utils.execute_batch_with_interval
        ([Except.ok 1, Except.ok 2] : List (Except Unit Nat)) 2 2
        [[0, 1]]).isSome = true) ∧
    Utils.batchLoop 2 (-1) ([] : List (List Nat)) 5
      ([] : List (Except Unit Nat)) 0 0 [] [] = none := by
  constructor
  · exact (batch_loop_termination 2 2 [[0, 1]]
      ([Except.ok 1, Except.ok 2] : List (Except Unit Nat))).1 (by decide)
  · exact (batch_loop_termination 2 (-1) ([] : List (List Nat))
      ([] : List (Except Unit Nat))).2 (by decide) (by decide) 5 0 0 [] []

/-- C5: in a successful run of `utils.execute_batch_with_interval` the trace
is exactly the concatenation of per-batch blocks — each batch's single sleep,
task starts, sleep end and task completions all precede every event of the
next batch, so batch `k+1`'s delay is not sampled (and none of its tasks
starts) until every task of batch `k` has completed, with a sleep between
tasks of different batches; every batch has at most `batch_size` tasks and
the peak number of in-flight tasks never exceeds `batch_size`. -/
theorem chunks_strictly_sequential {eps beta : Type} (seconds bs : Int)
    (σs : List (List Nat)) (vs : List beta)
    (hb : 1 ≤ bs) (hsec : 1 < seconds)
    (hσ : SchedOK σs bs (vs.map (Except.ok : beta → Except eps beta))) :
    Utils.batchTrace (vs.map (Except.ok : beta → Except eps beta))
        seconds bs σs =
      utilsBlocks ((chunksOf1 (bs.toNat - 1) vs).map List.length) 0 ∧
    (∀ n ∈ (chunksOf1 (bs.toNat - 1) vs).map List.length, n ≤ bs.toNat) ∧
    inFlightMax (Utils.batchTrace (vs.map (Except.ok : beta → Except eps beta))
        seconds bs σs) ≤ bs.toNat := by
  have hb' : 1 ≤ bs.toNat := by omega
  have htr := Utils.batchTrace_ok_all seconds bs σs hb' hsec vs hσ
  have hbound : ∀ n ∈ (chunksOf1 (bs.toNat - 1) vs).map List.length,
      n ≤ bs.toNat := by
    intro n hn
    rcases List.mem_map.mp hn with ⟨c0, hc0, hc0len⟩
    have := chunksOf1_mem_length (bs.toNat - 1) vs c0 hc0
    omega
  refine ⟨htr, hbound, ?_⟩
  rw [htr, inFlightMax]
  have hle := inFlight_utilsBlocks_le
    ((chunksOf1 (bs.toNat - 1) vs).map List.length) 0 0 0 bs.toNat
    (Nat.le_refl 0) hbound
  omega

/-- Witness for C5: three tasks at batch size 2. -/
theorem chunks_strictly_sequential_witness :
    Utils.batchTrace ([1, 2, 3].map (Except.ok : Nat → Except Unit Nat))
        2 2 [[0, 1], [0]] =
      utilsBlocks ((chunksOf1 ((2 : Int).toNat - 1) [1, 2, 3]).map List.length) 0 ∧
    (∀ n ∈ (chunksOf1 ((2 : Int).toNat - 1) [1, 2, 3]).map List.length,
      n ≤ (2 : Int).toNat) ∧
    inFlightMax (Utils.batchTrace ([1, 2, 3].map (Except.ok : Nat → Except Unit Nat))
        2 2 [[0, 1], [0]]) ≤ (2 : Int).toNat :=
  chunks_strictly_sequential 2 2 [[0, 1], [0]] [1, 2, 3]
    (by decide) (by decide) (by decide)

/-- C4 counterexample: one successful task run at batch size 1 through
`utils.execute_batch_with_interval`.  `asyncio.gather` is created before
`sleep_and_execute` suspends, so the task's start event falls between
`sleepStart` and `sleepEnd`: the task begins executing during the group's
sleep, not after it, contradicting the claim that no task of the group
begins executing before the sleep has finished. -/
theorem delayThenRunAll_start_counterexample :
    Utils.batchTrace ([Except.ok 0] : List (Except Unit Nat)) 2 1 [[0]] =
      [Ev.sleepStart, Ev.taskStart 0, Ev.sleepEnd, Ev.taskDone 0] ∧
    noStartInSleep false
      (Utils.batchTrace ([Except.ok 0] : List (Except Unit Nat)) 2 1 [[0]]) =
      false :=
  ⟨rfl, rfl⟩

/-- C4 amended: `utils.execute_batch_with_interval` samples exactly one wait
per group and collects the group's results only after that wait, but the
group's tasks are scheduled by `asyncio.gather` before `sleep_and_execute`
suspends and hence begin executing during the sleep — not after it — whenever
the group is non-empty; in the variant of `book spider/book_spider.py` the
sleep fully precedes the gather call, so there no task starts before the
sleep has finished. -/
theorem delayThenRunAll_single_sleep {eps beta : Type} (seconds bs : Int)
    (σs : List (List Nat)) (vs : List beta)
    (hb : 1 ≤ bs) (hsec : 1 < seconds)
    (hσ : SchedOK σs bs (vs.map (Except.ok : beta → Except eps beta))) :
    (Utils.batchTrace (vs.map (Except.ok : beta → Except eps beta))
        seconds bs σs).count Ev.sleepStart =
      (chunksOf1 (bs.toNat - 1) vs).length ∧
    Spider.batchTrace (vs.map (Except.ok : beta → Except eps beta))
        bs seconds σs =
      spiderBlocks ((chunksOf1 (bs.toNat - 1) vs).map List.length) 0 ∧
    noStartInSleep false
      (Spider.batchTrace (vs.map (Except.ok : beta → Except eps beta))
        bs seconds σs) = true ∧
    (vs ≠ [] →
      noStartInSleep false
        (Utils.batchTrace (vs.map (Except.ok : beta → Except eps beta))
          seconds bs σs) = false) := by
  have hb' : 1 ≤ bs.toNat := by omega
  have htr := Utils.batchTrace_ok_all seconds bs σs hb' hsec vs hσ
  have hstr : Spider.batchTrace (vs.map (Except.ok : beta → Except eps beta))
      bs seconds σs =
      spiderBlocks ((chunksOf1 (bs.toNat - 1) vs).map List.length) 0 := by
    rw [Spider.batchTrace, Spider.spider_ok_all seconds bs σs hb' vs hσ]
  refine ⟨?_, hstr, ?_, ?_⟩
  · rw [htr, count_sleepStart_utilsBlocks, List.length_map]
  · rw [hstr]
    exact noStartInSleep_spiderBlocks _ 0
  · intro hne
    cases vs with
    | nil => exact absurd rfl hne
    | cons v vs' =>
      rw [htr, chunksOf1_cons]
      simp only [List.map_cons, List.length_cons]
      exact noStartInSleep_utilsBlocks_head _ _ 0

/-- Witness for C4's amended claim: two tasks at batch size 1. -/
theorem delayThenRunAll_single_sleep_witness :
    (Utils.batchTrace ([1, 2].map (Except.ok : Nat → Except Unit Nat))
        2 1 [[0], [0]]).count Ev.sleepStart =
      (chunksOf1 ((1 : Int).toNat - 1) [1, 2]).length ∧
    Spider.batchTrace ([1, 2].map (Except.ok : Nat → Except Unit Nat))
        1 2 [[0], [0]] =
      spiderBlocks ((chunksOf1 ((1 : Int).toNat - 1) [1, 2]).map List.length) 0 ∧
    noStartInSleep false
      (Spider.batchTrace ([1, 2].map (Except.ok : Nat → Except Unit Nat))
        1 2 [[0], [0]]) = true ∧
    ([1, 2] ≠ ([] : List Nat) →
      noStartInSleep false
        (Utils.batchTrace ([1, 2].map (Except.ok : Nat → Except Unit Nat))
          2 1 [[0], [0]]) = false) :=
  delayThenRunAll_single_sleep 2 1 [[0], [0]] [1, 2]
    (by decide) (by decide) (by decide)

/-- C3 counterexample: two calls with an invalid delay window that do not
fail — `utils.execute_with_interval` on an empty task sequence with
`seconds = 0` returns `[]` without error (no task is pulled, so
`sleep_and_execute` is never reached), and the variant
`execute_batch_with_interval` of `book spider/book_spider.py` performs no
validation at all: with `seconds = 0` it still returns its task's result. -/
theorem invalid_window_counterexample :
    Utils.seqResults ([] : List (Except Unit Nat)) 0 = Except.ok [] ∧
    Spider.batchResults ([Except.ok 7] : List (Except Unit Nat)) 5 0 [[0]] =
      Except.ok [7] :=
  ⟨rfl, rfl⟩

/-- C3 amended: `utils.sleep_and_execute` raises `ValueError` when
`seconds ≤ 1`, before sleeping and before its task is awaited (its trace is
empty); through it, `utils.execute_with_interval` and
`utils.execute_batch_with_interval` fail the same way whenever at least one
task is pulled from the iterator — with no sleep performed and no task
started; on an empty task sequence both return `[]` without raising.  The
variant `execute_batch_with_interval` of `book spider/book_spider.py` never
validates `seconds` and never raises `InvalidWindowError`. -/
theorem invalid_window_check (eps beta : Type) (seconds bs : Int)
    (σs : List (List Nat)) (t : Except eps beta) (ts : List (Except eps beta))
    (hsec : seconds ≤ 1) (hb : 1 ≤ bs) :
    Utils.sleep_and_execute seconds t 0 =
      ([], Except.error RunError.invalidWindow) ∧
    Utils.execute_with_interval (t :: ts) seconds =
      ([], Except.error RunError.invalidWindow) ∧
    Utils.execute_batch_with_interval (t :: ts) seconds bs σs =
      some ([], Except.error RunError.invalidWindow) ∧
    Utils.execute_with_interval ([] : List (Except eps beta)) seconds =
      ([], Except.ok []) ∧
    Utils.execute_batch_with_interval ([] : List (Except eps beta))
      seconds bs σs = some ([], Except.ok []) ∧
    ∀ (tasks : List (Except eps beta)),
      Spider.batchResults tasks bs seconds σs ≠
        Except.error RunError.invalidWindow := by
  have hb' : 1 ≤ bs.toNat := by omega
  have h1 : Utils.sleep_and_execute seconds t 0 =
      ([], Except.error RunError.invalidWindow) := by
    unfold Utils.sleep_and_execute
    rw [if_pos hsec]
  refine ⟨h1, ?_, ?_, ?_, ?_, ?_⟩
  · rw [Utils.execute_with_interval]
    simp only [Utils.seqLoop]
    rw [h1]
    rfl
  · exact Utils.batch_invalid_run seconds bs σs hsec hb' t ts
  · rfl
  · exact Utils.empty_run seconds bs σs hb'
  · intro tasks
    exact Spider.no_invalid seconds bs σs tasks hb'

/-- Witness for C3's amended claim: one task and `seconds = 0`. -/
theorem invalid_window_check_witness :
    Utils.sleep_and_execute 0 (Except.ok 4 : Except Unit Nat) 0 =
      ([], Except.error RunError.invalidWindow) ∧
    Utils.execute_with_interval
        ((Except.ok 4 : Except Unit Nat) :: []) 0 =
      ([], Except.error RunError.invalidWindow) ∧
    Utils.execute_batch_with_interval
        ((Except.ok 4 : Except Unit Nat) :: []) 0 1 [] =
      some ([], Except.error RunError.invalidWindow) ∧
    Utils.execute_with_interval ([] : List (Except Unit Nat)) 0 =
      ([], Except.ok []) ∧
    Utils.execute_batch_with_interval ([] : List (Except Unit Nat)) 0 1 [] =
      some ([], Except.ok []) ∧
    ∀ (tasks : List (Except Unit Nat)),
      Spider.batchResults tasks 1 0 [] ≠
        Except.error RunError.invalidWindow :=
  invalid_window_check Unit Nat 0 1 [] (Except.ok 4) []
    (by decide) (by decide)

/-- C6: a failing task fails its whole gather group — a successful run of
`utils.execute_batch_with_interval` containing one failing task returns an
exception, never a partial result list — and at the driver level a failing
listing-page task makes `main` fail with `books.csv` never written: no layer
of the pipeline catches the error. -/
theorem fail_fast_propagation :
    (∀ (eps beta : Type) (seconds bs : Int) (σs : List (List Nat))
      (tasks : List (Except eps beta)) (e : eps),
      1 ≤ bs → 1 < seconds → SchedOK σs bs tasks → Except.error e ∈ tasks →
      ∃ e', Utils.batchResults tasks seconds bs σs = Except.error e') ∧
    (∀ (eps : Type) (O : Oracles eps) (schedD : Nat → List (List Nat))
      (p : Nat) (e : SpiderErr eps), p ∈ List.range' 1 50 →
      get_books O (schedD p) (pageURL p) = Except.error e →
      (∃ e', mainResult O schedD = Except.error e') ∧
        booksCsv O schedD = none) := by
  constructor
  · intro eps beta seconds bs σs tasks e hb hsec hσ hmem
    exact Utils.batchResults_err seconds bs σs (by omega) hsec tasks e hσ hmem
  · intro eps O schedD p e hp hpe
    exact mainResult_err O schedD p hp e hpe

/-- Witness for C6: a singleton failing batch, and a run in which every
listing fetch fails. -/
theorem fail_fast_propagation_witness :
    (∃ e', Utils.batchResults
        [(Except.error "x" : Except String Nat)] 2 1 [[0]] =
      Except.error e') ∧
    ((∃ e', mainResult failOracles (fun _ => []) = Except.error e') ∧
      booksCsv failOracles (fun _ => []) = none) := by
  constructor
  · exact fail_fast_propagation.1 String Nat 2 1 [[0]]
      [Except.error "x"] "x" (by decide) (by decide) (by decide) (by simp)
  · exact fail_fast_propagation.2 Nat failOracles (fun _ => []) 1
      (SpiderErr.net 0) (by decide) rfl

/-- C7: under total success, `main` fetches exactly the listing pages with
indices 1..50 one at a time through `execute_with_interval` (one sleep per
page, 50 sleeps), each page's detail links are fetched through
`execute_batch_with_interval` with `seconds = 2` and `batch_size = 10`, and
the final collection is the per-page record lists flattened in listing-page
order. -/
theorem pipeline_driver_structure (eps : Type) (O : Oracles eps)
    (schedD : Nat → List (List Nat)) (H : Nat → String)
    (recf : String → BookRecord)
    (hfetch : ∀ i ∈ List.range' 1 50, O.fetchPage (pageURL i) = Except.ok (H i))
    (hdet : ∀ l, get_book_data O l = Except.ok (recf l))
    (hσ : ∀ i ∈ List.range' 1 50,
      SchedOK (schedD i) 10 ((O.linksOf (H i)).map (get_book_data O))) :
    mainResult O schedD = Except.ok
      (((List.range' 1 50).map (fun i => (O.linksOf (H i)).map recf)).flatten) ∧
    (Utils.seqTrace (pageTasks O schedD) 2).count Ev.sleepStart = 50 ∧
    ∀ i ∈ List.range' 1 50,
      get_books O (schedD i) (pageURL i) =
        Except.mapError flattenErr
          (Utils.batchResults ((O.linksOf (H i)).map (get_book_data O)) 2 10
            (schedD i)) := by
  have hmo := mainResult_ok O schedD H recf hfetch hdet hσ
  refine ⟨hmo.1, hmo.2, ?_⟩
  intro i hi
  rw [get_books, hfetch i hi]

/-- Witness for C7: the all-success environment with no links per page. -/
theorem pipeline_driver_structure_witness :
    mainResult okOracles (fun _ => []) = Except.ok
      (((List.range' 1 50).map
        (fun _ => (okOracles.linksOf "page").map
          (fun _ => fixtureRecord))).flatten) ∧
    (Utils.seqTrace (pageTasks okOracles (fun _ => [])) 2).count
      Ev.sleepStart = 50 ∧
    ∀ i ∈ List.range' 1 50,
      get_books okOracles [] (pageURL i) =
        Except.mapError flattenErr
          (Utils.batchResults
            ((okOracles.linksOf "page").map (get_book_data okOracles)) 2 10
            []) :=
  pipeline_driver_structure Nat okOracles (fun _ => [])
    (fun _ => "page") (fun _ => fixtureRecord)
    (fun _ _ => rfl) (fun _ => rfl) (fun _ _ => rfl)

/-- C8: `scrape_book_details` produces a record with exactly the five fields
genre, title, price, stock and upc, where genre, title and upc are the
selected texts, price is the first `\d+\.\d{2}` match of the price text and
stock the first digit run of the stock text; on the known fixture it yields
genre "Poetry", title "A Light in the Attic", price "51.77", stock "22",
upc "a897fe39b1053632". -/
theorem scrape_book_details_fields :
    (∀ (p : DetailPage) (pr st : List Char),
      searchPriceNum p.priceText.data = some pr →
      searchDigits p.stockText.data = some st →
      scrape_book_details p = some
        { genre := p.genreText, title := p.titleText, price := String.mk pr,
          stock := String.mk st, upc := p.upcText }) ∧
    scrape_book_details fixturePage = some fixtureRecord := by
  constructor
  · intro p pr st hpr hst
    rw [scrape_book_details, hpr, hst]
  · rfl

/-- Witness for C8: a second fixture with noise around the numbers. -/
theorem scrape_book_details_fields_witness :
    scrape_book_details fixturePage2 = some
      { genre := "Fiction", title := "Sharp Objects", price := "12.34",
        stock := "5", upc := "u1" } :=
  scrape_book_details_fields.1 fixturePage2 "12.34".data "5".data
    (by decide) (by decide)

end BookSpider

